import Mathlib

/-!
The `service-access` command and the generated cloud-controller fake.

A shallow embedding of two Go sources:

* `command/v7/service_access_command.go`: `ServiceAccessCommand.Execute`, its helpers
  `getTableHeaders`, `accessFromVisibilityType`, `displayMessage`;
* `actor/cfnetworkingaction/cfnetworkingactionfakes/fake_cloud_controller_client.go`:
  the counterfeiter fake `FakeCloudControllerClient`.

Interfaces the command talks to (`command.UI`, `command.Config`, `command.SharedActor`,
`ServiceAccessActor`) are embedded as follows: the answering collaborators are fields of the
command holding functions from the call arguments to the Go result tuple, and every call the
command makes, to any collaborator, is appended to an ordered log of `Call` values.
A Go `error` is `Option GoError` (`none` is `nil`); a Go slice is a `List` (`nil` is `[]`).
-/

namespace ServiceAccess

/-! ## Data model -/

/-- A non-nil Go `error` value, identified by its message. -/
structure GoError where
  msg : String
deriving DecidableEq, Repr

/-- Modelled from the spec: the record type `v7action.ServicePlanAccess` is declared outside the
sources at hand; it is the composite visibility record of the spec, with the five fields
`Execute` reads (`VisibilityType` is a string-kinded tag, converted with `string(...)`). -/
structure ServicePlanAccess where
  BrokerName : String
  ServiceOfferingName : String
  ServicePlanName : String
  VisibilityType : String
  VisibilityDetails : List String
deriving DecidableEq, Repr

/-- Modelled from the spec: the user record returned by `Config.CurrentUser` is declared outside
the sources at hand; only its `Name` is read. -/
structure User where
  Name : String
deriving DecidableEq, Repr

/-- The keyed substitution values handed to a text template (`map[string]interface{}` literal). -/
abbrev TemplateValues := List (String × String)

/-- One call made by the command on a collaborator, with its arguments. -/
inductive Call where
  | CheckTarget (targetedOrganizationRequired targetedSpaceRequired : Bool)
  | CurrentUser
  | GetServiceAccess (offeringName brokerName orgName : String)
  | DisplayWarnings (warnings : List String)
  | DisplayText (template : String) (values : TemplateValues)
  | DisplayTextWithFlavor (template : String) (values : TemplateValues)
  | DisplayTableWithHeader (pfx : String) (table : List (List String)) (padding : Nat)
  | DisplayNewline
deriving DecidableEq, Repr

/-- The `command.SharedActor` collaborator: `CheckTarget(orgRequired, spaceRequired) error`. -/
structure SharedActor where
  CheckTarget : Bool → Bool → Option GoError

/-- The `command.Config` collaborator: `CurrentUser() (User, error)`. -/
structure Config where
  CurrentUser : User × Option GoError

/-- The `ServiceAccessActor` interface:
`GetServiceAccess(offeringName, brokerName, orgName) ([]ServicePlanAccess, Warnings, error)`. -/
structure ServiceAccessActor where
  GetServiceAccess : String → String → String →
    List ServicePlanAccess × List String × Option GoError

/-- The command value: the three filter flags and the answering collaborators. The `UI`
collaborator only receives calls; those are written to the call log. -/
structure ServiceAccessCommand where
  Broker : String
  ServiceOffering : String
  Organization : String
  Config : Config
  SharedActor : SharedActor
  Actor : ServiceAccessActor

/-- What one run of `Execute` did: the calls made on the collaborators, in order, and the
returned error. -/
structure Outcome where
  calls : List Call
  err : Option GoError
deriving DecidableEq, Repr

/-! ## `service_access_command.go` -/

/-- `getTableHeaders`. -/
def getTableHeaders (plan : ServicePlanAccess) : List String :=
  if plan.VisibilityType = "space" then
    ["service", "plan", "access", "space"]
  else
    ["service", "plan", "access", "orgs"]

/-- `accessFromVisibilityType`: the `switch` with cases `"public"`, `"admin"` and `default`. -/
def accessFromVisibilityType (visibilityType : String) : String :=
  if visibilityType = "public" then "all"
  else if visibilityType = "admin" then "none"
  else "limited"

/-- The message value built by `ServiceAccessCommand.displayMessage`. -/
structure getServiceAccessMessage where
  Broker : String
  ServiceOffering : String
  Organization : String
  User : String
deriving DecidableEq, Repr

/-- The `resources` slice of `getServiceAccessMessage.displayMessage` after the three appends. -/
def getServiceAccessMessage.resources (msg : getServiceAccessMessage) : List String :=
  let resources : List String := []
  let resources := if msg.Broker ≠ "" then
    resources ++ ["broker \x7b\x7b.Broker\x7d\x7d"] else resources
  let resources := if msg.ServiceOffering ≠ "" then
    resources ++ ["service \x7b\x7b.ServiceOffering\x7d\x7d"] else resources
  let resources := if msg.Organization ≠ "" then
    resources ++ ["organization \x7b\x7b.Org\x7d\x7d"] else resources
  resources

/-- The `template` string of `getServiceAccessMessage.displayMessage`. -/
def getServiceAccessMessage.template (msg : getServiceAccessMessage) : String :=
  let resources := msg.resources
  let template := "Getting service access"
  let template := if resources.length ≠ 0 then
    template ++ (" for " ++ " and ".intercalate resources) else template
  let template := template ++ " as \x7b\x7b.CurrentUser\x7d\x7d..."
  template

/-- `getServiceAccessMessage.displayMessage(ui)`: one `DisplayTextWithFlavor` call. -/
def getServiceAccessMessage.displayMessage (msg : getServiceAccessMessage)
    (ui : List Call) : List Call :=
  ui ++ [Call.DisplayTextWithFlavor msg.template
    [("Broker", msg.Broker), ("ServiceOffering", msg.ServiceOffering),
     ("Org", msg.Organization), ("CurrentUser", msg.User)]]

/-- `ServiceAccessCommand.displayMessage`: returns the extended call log and the error. -/
def ServiceAccessCommand.displayMessage (cmd : ServiceAccessCommand)
    (ui : List Call) : List Call × Option GoError :=
  let r := cmd.Config.CurrentUser
  let user := r.1
  let err := r.2
  let ui := ui ++ [Call.CurrentUser]
  match err with
  | some err => (ui, some err)
  | none =>
    let ui := getServiceAccessMessage.displayMessage
      { Broker := cmd.Broker, ServiceOffering := cmd.ServiceOffering,
        Organization := cmd.Organization, User := user.Name } ui
    let ui := ui ++ [Call.DisplayNewline]
    (ui, none)

/-- The row appended to `data` for one plan (the slice literal of the loop body). -/
def planRow (plan : ServicePlanAccess) : List String :=
  [plan.ServiceOfferingName, plan.ServicePlanName,
   accessFromVisibilityType plan.VisibilityType,
   ",".intercalate plan.VisibilityDetails]

/-- The three UI calls made at the end of a grouping. -/
def displayGrouping (plan : ServicePlanAccess) (data : List (List String)) : List Call :=
  [Call.DisplayText "broker: \x7b\x7b.BrokerName\x7d\x7d" [("BrokerName", plan.BrokerName)],
   Call.DisplayTableWithHeader "   " data 3,
   Call.DisplayNewline]

/-- The `for index, plan := range servicePlanAccess` loop of `Execute`, from iteration `index`
on: the third argument is the part of the slice still to be ranged over, `data` is the loop
variable, `ui` the call log. `servicePlanAccess[index+1]` is a checked slice access: `none` is
the run-time panic of an out-of-range index. -/
def renderPlans (servicePlanAccess : List ServicePlanAccess) :
    Nat → List ServicePlanAccess → List (List String) → List Call → Option (List Call)
  | _, [], _, ui => some ui
  | index, plan :: rest, data, ui =>
    let data := if data.length = 0 then [getTableHeaders plan] else data
    let data := data ++ [planRow plan]
    let endOfList : Bool := decide (index + 1 = servicePlanAccess.length)
    let endOfGrouping : Option Bool :=
      if endOfList then some true
      else (servicePlanAccess[index + 1]?).map fun next =>
        decide (plan.BrokerName ≠ next.BrokerName)
    match endOfGrouping with
    | none => none
    | some true =>
      renderPlans servicePlanAccess (index + 1) rest [] (ui ++ displayGrouping plan data)
    | some false =>
      renderPlans servicePlanAccess (index + 1) rest data ui

/-- `ServiceAccessCommand.Execute`. The result is `none` when the run panics. -/
def ServiceAccessCommand.Execute (cmd : ServiceAccessCommand) (_args : List String) :
    Option Outcome :=
  let ui : List Call := [Call.CheckTarget false false]
  match cmd.SharedActor.CheckTarget false false with
  | some err => some ⟨ui, some err⟩
  | none =>
    let r := cmd.displayMessage ui
    let ui := r.1
    match r.2 with
    | some err => some ⟨ui, some err⟩
    | none =>
      let r := cmd.Actor.GetServiceAccess cmd.ServiceOffering cmd.Broker cmd.Organization
      let servicePlanAccess := r.1
      let warnings := r.2.1
      let err := r.2.2
      let ui := ui ++ [Call.GetServiceAccess cmd.ServiceOffering cmd.Broker cmd.Organization]
      let ui := ui ++ [Call.DisplayWarnings warnings]
      match err with
      | some err => some ⟨ui, some err⟩
      | none =>
        if servicePlanAccess.length = 0 then
          some ⟨ui ++ [Call.DisplayText "No service plans found." []], none⟩
        else
          (renderPlans servicePlanAccess 0 servicePlanAccess [] ui).map
            fun ui => ⟨ui, none⟩

/-! ## `fake_cloud_controller_client.go`

The resource types `resources.Application`, `resources.Organization`, `ccv3.Space`,
`ccv3.IncludedResources` and `ccv3.Query` are declared in other packages; the fake only stores
and returns their values, so they are type parameters (`Inhabited` supplies the Go zero value).
`ccv3.Warnings` is `[]string`. The mutexes guard against concurrent use and have no effect on
a sequential history, the only kind considered here; stubs are pure functions. -/

namespace Fakes

/-- A Go map: `none` is the nil map, `some f` a made map with the entries of `f`. -/
abbrev GoMap (κ ν : Type) := Option (κ → Option ν)

/-- Reading `m[k]` with the comma-ok form; a nil map reads as empty. -/
def GoMap.lookup {κ ν : Type} (m : GoMap κ ν) (k : κ) : Option ν :=
  match m with
  | none => none
  | some f => f k

/-- The entries of a map once `if m == nil { m = make(...) }` has run. -/
def GoMap.made {κ ν : Type} (m : GoMap κ ν) : κ → Option ν :=
  match m with
  | none => fun _ => none
  | some f => f

/-- One `interface{}` argument recorded by `recordInvocation`. -/
inductive Arg (Qry : Type) where
  | str (s : String)
  | queries (qs : List Qry)

section
variable (App Org Spc Inc Qry : Type)

/-- Result tuple of `GetApplicationByNameAndSpace`. -/
abbrev AppResult := App × List String × Option GoError
/-- Result tuple of `GetApplications`. -/
abbrev AppsResult := List App × List String × Option GoError
/-- Result tuple of `GetOrganizations`. -/
abbrev OrgsResult := List Org × List String × Option GoError
/-- Result tuple of `GetSpaces`. -/
abbrev SpacesResult := List Spc × Inc × List String × Option GoError

/-- The struct `FakeCloudControllerClient`, without its mutexes. -/
structure FakeCloudControllerClient where
  GetApplicationByNameAndSpaceStub : Option (String → String → AppResult App)
  getApplicationByNameAndSpaceArgsForCall : List (String × String)
  getApplicationByNameAndSpaceReturns : AppResult App
  getApplicationByNameAndSpaceReturnsOnCall : GoMap Int (AppResult App)
  GetApplicationsStub : Option (List Qry → AppsResult App)
  getApplicationsArgsForCall : List (List Qry)
  getApplicationsReturns : AppsResult App
  getApplicationsReturnsOnCall : GoMap Int (AppsResult App)
  GetOrganizationsStub : Option (List Qry → OrgsResult Org)
  getOrganizationsArgsForCall : List (List Qry)
  getOrganizationsReturns : OrgsResult Org
  getOrganizationsReturnsOnCall : GoMap Int (OrgsResult Org)
  GetSpacesStub : Option (List Qry → SpacesResult Spc Inc)
  getSpacesArgsForCall : List (List Qry)
  getSpacesReturns : SpacesResult Spc Inc
  getSpacesReturnsOnCall : GoMap Int (SpacesResult Spc Inc)
  invocations : GoMap String (List (List (Arg Qry)))

end

section
variable {App Org Spc Inc Qry : Type}

/-- The zero value of the struct (`new(FakeCloudControllerClient)`). -/
def FakeCloudControllerClient.fresh [Inhabited App] [Inhabited Inc] :
    FakeCloudControllerClient App Org Spc Inc Qry where
  GetApplicationByNameAndSpaceStub := none
  getApplicationByNameAndSpaceArgsForCall := []
  getApplicationByNameAndSpaceReturns := (default, [], none)
  getApplicationByNameAndSpaceReturnsOnCall := none
  GetApplicationsStub := none
  getApplicationsArgsForCall := []
  getApplicationsReturns := ([], [], none)
  getApplicationsReturnsOnCall := none
  GetOrganizationsStub := none
  getOrganizationsArgsForCall := []
  getOrganizationsReturns := ([], [], none)
  getOrganizationsReturnsOnCall := none
  GetSpacesStub := none
  getSpacesArgsForCall := []
  getSpacesReturns := ([], default, [], none)
  getSpacesReturnsOnCall := none
  invocations := none

/-- `recordInvocation`. -/
def FakeCloudControllerClient.recordInvocation (fake : FakeCloudControllerClient App Org Spc Inc Qry)
    (key : String) (args : List (Arg Qry)) : FakeCloudControllerClient App Org Spc Inc Qry :=
  let invocations := fake.invocations.made
  let invocations :=
    if ((invocations key).getD []).length = 0 then Function.update invocations key (some [])
    else invocations
  let invocations :=
    Function.update invocations key (some ((invocations key).getD [] ++ [args]))
  { fake with invocations := some invocations }

/-- `Invocations`: a copy of the recorded map. -/
def FakeCloudControllerClient.Invocations (fake : FakeCloudControllerClient App Org Spc Inc Qry) :
    String → Option (List (List (Arg Qry))) :=
  match fake.invocations with
  | none => fun _ => none
  | some m => m

/-- Indexing `s[i]` with a Go `int`; `none` is the out-of-range panic. -/
def sliceIndex {α : Type} (s : List α) (i : Int) : Option α :=
  if i < 0 then none else s[i.toNat]?

/-- `GetApplicationByNameAndSpace`: the state after the call and the returned tuple. -/
def FakeCloudControllerClient.GetApplicationByNameAndSpace (fake : FakeCloudControllerClient App Org Spc Inc Qry)
    (arg1 arg2 : String) :
    FakeCloudControllerClient App Org Spc Inc Qry × AppResult App :=
  let specific := fake.getApplicationByNameAndSpaceReturnsOnCall.lookup (fake.getApplicationByNameAndSpaceArgsForCall.length : Int)
  let fake := { fake with getApplicationByNameAndSpaceArgsForCall := fake.getApplicationByNameAndSpaceArgsForCall ++ [(arg1, arg2)] }
  let fake := fake.recordInvocation "GetApplicationByNameAndSpace" [Arg.str arg1, Arg.str arg2]
  match fake.GetApplicationByNameAndSpaceStub with
  | some stub => (fake, stub arg1 arg2)
  | none =>
    match specific with
    | some ret => (fake, ret)
    | none => (fake, fake.getApplicationByNameAndSpaceReturns)

/-- `GetApplicationByNameAndSpaceCallCount`. -/
def FakeCloudControllerClient.GetApplicationByNameAndSpaceCallCount
    (fake : FakeCloudControllerClient App Org Spc Inc Qry) : Int :=
  (fake.getApplicationByNameAndSpaceArgsForCall.length : Int)

/-- `GetApplicationByNameAndSpaceCalls`: installs `stub` (possibly nil). -/
def FakeCloudControllerClient.GetApplicationByNameAndSpaceCalls
    (fake : FakeCloudControllerClient App Org Spc Inc Qry)
    (stub : Option (String → String → AppResult App)) : FakeCloudControllerClient App Org Spc Inc Qry :=
  { fake with GetApplicationByNameAndSpaceStub := stub }

/-- `GetApplicationByNameAndSpaceArgsForCall`; `none` is the out-of-range panic. -/
def FakeCloudControllerClient.GetApplicationByNameAndSpaceArgsForCall
    (fake : FakeCloudControllerClient App Org Spc Inc Qry) (i : Int) : Option (String × String) :=
  sliceIndex fake.getApplicationByNameAndSpaceArgsForCall i

/-- `GetApplicationByNameAndSpaceReturns`. -/
def FakeCloudControllerClient.GetApplicationByNameAndSpaceReturns
    (fake : FakeCloudControllerClient App Org Spc Inc Qry)
    (result : AppResult App) : FakeCloudControllerClient App Org Spc Inc Qry :=
  { fake with GetApplicationByNameAndSpaceStub := none, getApplicationByNameAndSpaceReturns := result }

/-- `GetApplicationByNameAndSpaceReturnsOnCall`. -/
def FakeCloudControllerClient.GetApplicationByNameAndSpaceReturnsOnCall
    (fake : FakeCloudControllerClient App Org Spc Inc Qry) (i : Int)
    (result : AppResult App) : FakeCloudControllerClient App Org Spc Inc Qry :=
  { fake with
    GetApplicationByNameAndSpaceStub := none,
    getApplicationByNameAndSpaceReturnsOnCall :=
      some (Function.update fake.getApplicationByNameAndSpaceReturnsOnCall.made i (some result)) }

/-- `GetApplications`: the state after the call and the returned tuple. -/
def FakeCloudControllerClient.GetApplications (fake : FakeCloudControllerClient App Org Spc Inc Qry)
    (arg1 : List Qry) :
    FakeCloudControllerClient App Org Spc Inc Qry × AppsResult App :=
  let specific := fake.getApplicationsReturnsOnCall.lookup (fake.getApplicationsArgsForCall.length : Int)
  let fake := { fake with getApplicationsArgsForCall := fake.getApplicationsArgsForCall ++ [arg1] }
  let fake := fake.recordInvocation "GetApplications" [Arg.queries arg1]
  match fake.GetApplicationsStub with
  | some stub => (fake, stub arg1)
  | none =>
    match specific with
    | some ret => (fake, ret)
    | none => (fake, fake.getApplicationsReturns)

/-- `GetApplicationsCallCount`. -/
def FakeCloudControllerClient.GetApplicationsCallCount
    (fake : FakeCloudControllerClient App Org Spc Inc Qry) : Int :=
  (fake.getApplicationsArgsForCall.length : Int)

/-- `GetApplicationsCalls`: installs `stub` (possibly nil). -/
def FakeCloudControllerClient.GetApplicationsCalls
    (fake : FakeCloudControllerClient App Org Spc Inc Qry)
    (stub : Option (List Qry → AppsResult App)) : FakeCloudControllerClient App Org Spc Inc Qry :=
  { fake with GetApplicationsStub := stub }

/-- `GetApplicationsArgsForCall`; `none` is the out-of-range panic. -/
def FakeCloudControllerClient.GetApplicationsArgsForCall
    (fake : FakeCloudControllerClient App Org Spc Inc Qry) (i : Int) : Option (List Qry) :=
  sliceIndex fake.getApplicationsArgsForCall i

/-- `GetApplicationsReturns`. -/
def FakeCloudControllerClient.GetApplicationsReturns
    (fake : FakeCloudControllerClient App Org Spc Inc Qry)
    (result : AppsResult App) : FakeCloudControllerClient App Org Spc Inc Qry :=
  { fake with GetApplicationsStub := none, getApplicationsReturns := result }

/-- `GetApplicationsReturnsOnCall`. -/
def FakeCloudControllerClient.GetApplicationsReturnsOnCall
    (fake : FakeCloudControllerClient App Org Spc Inc Qry) (i : Int)
    (result : AppsResult App) : FakeCloudControllerClient App Org Spc Inc Qry :=
  { fake with
    GetApplicationsStub := none,
    getApplicationsReturnsOnCall :=
      some (Function.update fake.getApplicationsReturnsOnCall.made i (some result)) }

/-- `GetOrganizations`: the state after the call and the returned tuple. -/
def FakeCloudControllerClient.GetOrganizations (fake : FakeCloudControllerClient App Org Spc Inc Qry)
    (arg1 : List Qry) :
    FakeCloudControllerClient App Org Spc Inc Qry × OrgsResult Org :=
  let specific := fake.getOrganizationsReturnsOnCall.lookup (fake.getOrganizationsArgsForCall.length : Int)
  let fake := { fake with getOrganizationsArgsForCall := fake.getOrganizationsArgsForCall ++ [arg1] }
  let fake := fake.recordInvocation "GetOrganizations" [Arg.queries arg1]
  match fake.GetOrganizationsStub with
  | some stub => (fake, stub arg1)
  | none =>
    match specific with
    | some ret => (fake, ret)
    | none => (fake, fake.getOrganizationsReturns)

/-- `GetOrganizationsCallCount`. -/
def FakeCloudControllerClient.GetOrganizationsCallCount
    (fake : FakeCloudControllerClient App Org Spc Inc Qry) : Int :=
  (fake.getOrganizationsArgsForCall.length : Int)

/-- `GetOrganizationsCalls`: installs `stub` (possibly nil). -/
def FakeCloudControllerClient.GetOrganizationsCalls
    (fake : FakeCloudControllerClient App Org Spc Inc Qry)
    (stub : Option (List Qry → OrgsResult Org)) : FakeCloudControllerClient App Org Spc Inc Qry :=
  { fake with GetOrganizationsStub := stub }

/-- `GetOrganizationsArgsForCall`; `none` is the out-of-range panic. -/
def FakeCloudControllerClient.GetOrganizationsArgsForCall
    (fake : FakeCloudControllerClient App Org Spc Inc Qry) (i : Int) : Option (List Qry) :=
  sliceIndex fake.getOrganizationsArgsForCall i

/-- `GetOrganizationsReturns`. -/
def FakeCloudControllerClient.GetOrganizationsReturns
    (fake : FakeCloudControllerClient App Org Spc Inc Qry)
    (result : OrgsResult Org) : FakeCloudControllerClient App Org Spc Inc Qry :=
  { fake with GetOrganizationsStub := none, getOrganizationsReturns := result }

/-- `GetOrganizationsReturnsOnCall`. -/
def FakeCloudControllerClient.GetOrganizationsReturnsOnCall
    (fake : FakeCloudControllerClient App Org Spc Inc Qry) (i : Int)
    (result : OrgsResult Org) : FakeCloudControllerClient App Org Spc Inc Qry :=
  { fake with
    GetOrganizationsStub := none,
    getOrganizationsReturnsOnCall :=
      some (Function.update fake.getOrganizationsReturnsOnCall.made i (some result)) }

/-- `GetSpaces`: the state after the call and the returned tuple. -/
def FakeCloudControllerClient.GetSpaces (fake : FakeCloudControllerClient App Org Spc Inc Qry)
    (arg1 : List Qry) :
    FakeCloudControllerClient App Org Spc Inc Qry × SpacesResult Spc Inc :=
  let specific := fake.getSpacesReturnsOnCall.lookup (fake.getSpacesArgsForCall.length : Int)
  let fake := { fake with getSpacesArgsForCall := fake.getSpacesArgsForCall ++ [arg1] }
  let fake := fake.recordInvocation "GetSpaces" [Arg.queries arg1]
  match fake.GetSpacesStub with
  | some stub => (fake, stub arg1)
  | none =>
    match specific with
    | some ret => (fake, ret)
    | none => (fake, fake.getSpacesReturns)

/-- `GetSpacesCallCount`. -/
def FakeCloudControllerClient.GetSpacesCallCount
    (fake : FakeCloudControllerClient App Org Spc Inc Qry) : Int :=
  (fake.getSpacesArgsForCall.length : Int)

/-- `GetSpacesCalls`: installs `stub` (possibly nil). -/
def FakeCloudControllerClient.GetSpacesCalls
    (fake : FakeCloudControllerClient App Org Spc Inc Qry)
    (stub : Option (List Qry → SpacesResult Spc Inc)) : FakeCloudControllerClient App Org Spc Inc Qry :=
  { fake with GetSpacesStub := stub }

/-- `GetSpacesArgsForCall`; `none` is the out-of-range panic. -/
def FakeCloudControllerClient.GetSpacesArgsForCall
    (fake : FakeCloudControllerClient App Org Spc Inc Qry) (i : Int) : Option (List Qry) :=
  sliceIndex fake.getSpacesArgsForCall i

/-- `GetSpacesReturns`. -/
def FakeCloudControllerClient.GetSpacesReturns
    (fake : FakeCloudControllerClient App Org Spc Inc Qry)
    (result : SpacesResult Spc Inc) : FakeCloudControllerClient App Org Spc Inc Qry :=
  { fake with GetSpacesStub := none, getSpacesReturns := result }

/-- `GetSpacesReturnsOnCall`. -/
def FakeCloudControllerClient.GetSpacesReturnsOnCall
    (fake : FakeCloudControllerClient App Org Spc Inc Qry) (i : Int)
    (result : SpacesResult Spc Inc) : FakeCloudControllerClient App Org Spc Inc Qry :=
  { fake with
    GetSpacesStub := none,
    getSpacesReturnsOnCall :=
      some (Function.update fake.getSpacesReturnsOnCall.made i (some result)) }

end

end Fakes

/-! ## Reading a call log, and the partition into broker runs -/

/-- The template of the header line displayed before a table. -/
def brokerHeaderTemplate : String := "broker: \x7b\x7b.BrokerName\x7d\x7d"

/-- The warnings sequences passed to `UI.DisplayWarnings`, one per call, in call order. -/
def displayedWarnings (calls : List Call) : List (List String) :=
  calls.filterMap fun c =>
    match c with
    | Call.DisplayWarnings warnings => some warnings
    | _ => none

/-- The broker named by each rendered `broker:` header, in rendering order. -/
def brokerHeaders (calls : List Call) : List String :=
  calls.filterMap fun c =>
    match c with
    | Call.DisplayText template values =>
      if template = brokerHeaderTemplate then some ((values.lookup "BrokerName").getD "")
      else none
    | _ => none

/-- The tables rendered with `UI.DisplayTableWithHeader`, in rendering order. -/
def renderedTables (calls : List Call) : List (List (List String)) :=
  calls.filterMap fun c =>
    match c with
    | Call.DisplayTableWithHeader _ table _ => some table
    | _ => none

/-- The call is one on the `UI` collaborator. -/
def Call.isDisplay : Call → Bool
  | Call.DisplayWarnings _ => true
  | Call.DisplayText _ _ => true
  | Call.DisplayTextWithFlavor _ _ => true
  | Call.DisplayTableWithHeader _ _ _ => true
  | Call.DisplayNewline => true
  | _ => false

/-- The call is `SharedActor.CheckTarget`. -/
def Call.isCheckTarget : Call → Bool
  | Call.CheckTarget _ _ => true
  | _ => false

/-- The call is `Config.CurrentUser`. -/
def Call.isCurrentUser : Call → Bool
  | Call.CurrentUser => true
  | _ => false

/-- The call is `Actor.GetServiceAccess`. -/
def Call.isGetServiceAccess : Call → Bool
  | Call.GetServiceAccess _ _ _ => true
  | _ => false

/-- The call renders the fixed text `No service plans found.`. -/
def Call.isNoPlansText : Call → Bool
  | Call.DisplayText template _ => decide (template = "No service plans found.")
  | _ => false

/-- The call renders a `broker:` header. -/
def Call.isBrokerHeader : Call → Bool
  | Call.DisplayText template _ => decide (template = brokerHeaderTemplate)
  | _ => false

/-- The call renders a table. -/
def Call.isTable : Call → Bool
  | Call.DisplayTableWithHeader _ _ _ => true
  | _ => false

/-- The calls `Execute` has made once `CheckTarget` and `CurrentUser` succeeded and
`Actor.GetServiceAccess` has been called: the target check, the user lookup, the progress
message with its newline, and the actor call. -/
def progressCalls (cmd : ServiceAccessCommand) : List Call :=
  [Call.CheckTarget false false,
   Call.CurrentUser,
   Call.DisplayTextWithFlavor
     (getServiceAccessMessage.template
       { Broker := cmd.Broker, ServiceOffering := cmd.ServiceOffering,
         Organization := cmd.Organization, User := cmd.Config.CurrentUser.1.Name })
     [("Broker", cmd.Broker), ("ServiceOffering", cmd.ServiceOffering),
      ("Org", cmd.Organization), ("CurrentUser", cmd.Config.CurrentUser.1.Name)],
   Call.DisplayNewline,
   Call.GetServiceAccess cmd.ServiceOffering cmd.Broker cmd.Organization]

/-- The maximal runs of consecutive records with equal `BrokerName`, in input order. -/
def brokerRuns : List ServicePlanAccess → List (List ServicePlanAccess)
  | [] => []
  | plan :: rest =>
    match brokerRuns rest with
    | [] => [[plan]]
    | [] :: runs => [plan] :: runs
    | (next :: run) :: runs =>
      if plan.BrokerName = next.BrokerName then (plan :: next :: run) :: runs
      else [plan] :: (next :: run) :: runs

/-- The broker of a run: the `BrokerName` of its first record. -/
def runBroker (run : List ServicePlanAccess) : String :=
  match run with
  | [] => ""
  | first :: _ => first.BrokerName

/-- The table of a run: the header row chosen by `getTableHeaders` on the first record of the
run, then one row per record. -/
def runTable (run : List ServicePlanAccess) : List (List String) :=
  match run with
  | [] => []
  | first :: _ => getTableHeaders first :: run.map planRow

/-- The calls that render one run: header line, table, newline. -/
def renderRun (run : List ServicePlanAccess) : List Call :=
  [Call.DisplayText brokerHeaderTemplate [("BrokerName", runBroker run)],
   Call.DisplayTableWithHeader "   " (runTable run) 3,
   Call.DisplayNewline]

/-- The loop of `Execute` as a recursion on the records still to be ranged over, looking one
record ahead; `renderPlans_eq` shows that the indexed loop computes exactly this. -/
def renderFrom : List ServicePlanAccess → List (List String) → List Call
  | [], _ => []
  | [plan], data =>
    displayGrouping plan
      ((if data.length = 0 then [getTableHeaders plan] else data) ++ [planRow plan])
  | plan :: next :: rest, data =>
    if plan.BrokerName ≠ next.BrokerName then
      displayGrouping plan
        ((if data.length = 0 then [getTableHeaders plan] else data) ++ [planRow plan])
        ++ renderFrom (next :: rest) []
    else
      renderFrom (next :: rest)
        ((if data.length = 0 then [getTableHeaders plan] else data) ++ [planRow plan])

/-- The grouping invariant of the spec, on positions: whenever two records share a
`BrokerName`, every record between them has that `BrokerName` too. -/
def BrokersContiguous (recs : List ServicePlanAccess) : Prop :=
  ∀ k, k < recs.length → ∀ j, j < k → ∀ i, i < j →
    (recs[i]?).map (fun p => p.BrokerName) = (recs[k]?).map (fun p => p.BrokerName) →
    (recs[j]?).map (fun p => p.BrokerName) = (recs[i]?).map (fun p => p.BrokerName)

instance (recs : List ServicePlanAccess) : Decidable (BrokersContiguous recs) := by
  unfold BrokersContiguous; infer_instance

/-- The records of one broker, in input order (grouping by broker name globally). -/
def recordsOfBroker (recs : List ServicePlanAccess) (broker : String) :
    List ServicePlanAccess :=
  recs.filter fun p => decide (p.BrokerName = broker)

/-- The distinct `BrokerName` values of a record list. -/
def distinctBrokers (recs : List ServicePlanAccess) : List String :=
  (recs.map fun p => p.BrokerName).dedup

/-! ## Specification-side definitions and concrete inputs -/

/-- First-failure of three results, in call order. -/
def firstFailure (checkTarget currentUser getServiceAccess : Option GoError) :
    Option GoError :=
  match checkTarget with
  | some e => some e
  | none =>
    match currentUser with
    | some e => some e
    | none => getServiceAccess

/-- A command with no filter, a targeted and logged-in user `admin`, and an actor answering
every call with `result`. -/
def commandAnswering (result : List ServicePlanAccess × List String × Option GoError) :
    ServiceAccessCommand where
  Broker := ""
  ServiceOffering := ""
  Organization := ""
  Config := ⟨(⟨"admin"⟩, none)⟩
  SharedActor := ⟨fun _ _ => none⟩
  Actor := ⟨fun _ _ _ => result⟩

/-- Scenario A of the spec: two plans of broker `b1`, one plan of broker `b2`. -/
def scenarioA : List ServicePlanAccess :=
  [⟨"b1", "offering1", "plan1", "public", []⟩,
   ⟨"b1", "offering1", "plan2", "organization", ["org1", "org2"]⟩,
   ⟨"b2", "offering2", "plan3", "admin", []⟩]

/-- One broker with an organization-scoped plan followed by a space-scoped plan. -/
def mixedRun : List ServicePlanAccess :=
  [⟨"b1", "offering1", "plan1", "organization", ["org1"]⟩,
   ⟨"b1", "offering1", "plan2", "space", ["space1"]⟩]

/-- The statement that every record is rendered under the header row of its own
classification: each rendered table, paired with the run it renders, starts with
`getTableHeaders p` for every record `p` of that run. -/
def ColumnsFollowEveryRecord (recs : List ServicePlanAccess) (calls : List Call) : Prop :=
  ∀ pair ∈ (brokerRuns recs).zip (renderedTables calls),
    ∀ p ∈ pair.1, pair.2.head? = some (getTableHeaders p)

instance (recs : List ServicePlanAccess) (calls : List Call) :
    Decidable (ColumnsFollowEveryRecord recs calls) := by
  unfold ColumnsFollowEveryRecord; infer_instance

/-- The calls `Execute` makes on `commandAnswering (mixedRun, [], none)`. -/
def mixedRunCalls : List Call :=
  [Call.CheckTarget false false,
   Call.CurrentUser,
   Call.DisplayTextWithFlavor "Getting service access as \x7b\x7b.CurrentUser\x7d\x7d..."
     [("Broker", ""), ("ServiceOffering", ""), ("Org", ""), ("CurrentUser", "admin")],
   Call.DisplayNewline,
   Call.GetServiceAccess "" "" "",
   Call.DisplayWarnings [],
   Call.DisplayText "broker: \x7b\x7b.BrokerName\x7d\x7d" [("BrokerName", "b1")],
   Call.DisplayTableWithHeader "   "
     [["service", "plan", "access", "orgs"],
      ["offering1", "plan1", "limited", "org1"],
      ["offering1", "plan2", "limited", "space1"]] 3,
   Call.DisplayNewline]

/-- The fragments of the progress message, stated independently of the code: one fragment per
non-empty filter, in the fixed order broker, service, organization. -/
def scopeFragments (broker serviceOffering organization : String) : List String :=
  ([(broker, "broker \x7b\x7b.Broker\x7d\x7d"),
    (serviceOffering, "service \x7b\x7b.ServiceOffering\x7d\x7d"),
    (organization, "organization \x7b\x7b.Org\x7d\x7d")].filter
      (fun f => decide (f.1 ≠ ""))).map (fun f => f.2)

/-- The scope part of the progress message, stated independently of the code: empty when there is
no fragment, else ` for ` followed by the fragments joined with ` and `. -/
def scopeText (broker serviceOffering organization : String) : String :=
  if scopeFragments broker serviceOffering organization = [] then ""
  else " for " ++ " and ".intercalate (scopeFragments broker serviceOffering organization)

/-! ## Sequential histories on the fake -/

namespace Fakes

section
variable (App Org Spc Inc Qry : Type)

/-- One state-changing operation on the fake: a call of one of the four client methods, or
one of their `Calls` / `Returns` / `ReturnsOnCall` configurators. (`CallCount`, `ArgsForCall`
and `Invocations` only read the state.) -/
inductive Op where
  | GetApplicationByNameAndSpace (arg1 arg2 : String)
  | GetApplicationByNameAndSpaceCalls (stub : Option (String → String → AppResult App))
  | GetApplicationByNameAndSpaceReturns (result : AppResult App)
  | GetApplicationByNameAndSpaceReturnsOnCall (i : Int) (result : AppResult App)
  | GetApplications (arg1 : List Qry)
  | GetApplicationsCalls (stub : Option (List Qry → AppsResult App))
  | GetApplicationsReturns (result : AppsResult App)
  | GetApplicationsReturnsOnCall (i : Int) (result : AppsResult App)
  | GetOrganizations (arg1 : List Qry)
  | GetOrganizationsCalls (stub : Option (List Qry → OrgsResult Org))
  | GetOrganizationsReturns (result : OrgsResult Org)
  | GetOrganizationsReturnsOnCall (i : Int) (result : OrgsResult Org)
  | GetSpaces (arg1 : List Qry)
  | GetSpacesCalls (stub : Option (List Qry → SpacesResult Spc Inc))
  | GetSpacesReturns (result : SpacesResult Spc Inc)
  | GetSpacesReturnsOnCall (i : Int) (result : SpacesResult Spc Inc)

end

section
variable {App Org Spc Inc Qry : Type}

/-- The state after one operation. -/
def FakeCloudControllerClient.apply (fake : FakeCloudControllerClient App Org Spc Inc Qry)
    (op : Op App Org Spc Inc Qry) : FakeCloudControllerClient App Org Spc Inc Qry :=
  match op with
  | Op.GetApplicationByNameAndSpace arg1 arg2 => (fake.GetApplicationByNameAndSpace arg1 arg2).1
  | Op.GetApplicationByNameAndSpaceCalls stub => fake.GetApplicationByNameAndSpaceCalls stub
  | Op.GetApplicationByNameAndSpaceReturns r => fake.GetApplicationByNameAndSpaceReturns r
  | Op.GetApplicationByNameAndSpaceReturnsOnCall i r =>
    fake.GetApplicationByNameAndSpaceReturnsOnCall i r
  | Op.GetApplications arg1 => (fake.GetApplications arg1).1
  | Op.GetApplicationsCalls stub => fake.GetApplicationsCalls stub
  | Op.GetApplicationsReturns r => fake.GetApplicationsReturns r
  | Op.GetApplicationsReturnsOnCall i r => fake.GetApplicationsReturnsOnCall i r
  | Op.GetOrganizations arg1 => (fake.GetOrganizations arg1).1
  | Op.GetOrganizationsCalls stub => fake.GetOrganizationsCalls stub
  | Op.GetOrganizationsReturns r => fake.GetOrganizationsReturns r
  | Op.GetOrganizationsReturnsOnCall i r => fake.GetOrganizationsReturnsOnCall i r
  | Op.GetSpaces arg1 => (fake.GetSpaces arg1).1
  | Op.GetSpacesCalls stub => fake.GetSpacesCalls stub
  | Op.GetSpacesReturns r => fake.GetSpacesReturns r
  | Op.GetSpacesReturnsOnCall i r => fake.GetSpacesReturnsOnCall i r

/-- The state after a sequential history of operations. -/
def FakeCloudControllerClient.run (fake : FakeCloudControllerClient App Org Spc Inc Qry)
    (history : List (Op App Org Spc Inc Qry)) : FakeCloudControllerClient App Org Spc Inc Qry :=
  history.foldl FakeCloudControllerClient.apply fake

/-- Reading `Invocations()[key]`: a missing key reads as the nil slice. -/
def FakeCloudControllerClient.invocationsOf
    (fake : FakeCloudControllerClient App Org Spc Inc Qry) (key : String) :
    List (List (Arg Qry)) :=
  (fake.Invocations key).getD []

/-- The argument pairs of the `GetApplicationByNameAndSpace` calls of a history, in order. -/
def appByNameCalls (history : List (Op App Org Spc Inc Qry)) : List (String × String) :=
  history.filterMap fun op =>
    match op with
    | Op.GetApplicationByNameAndSpace arg1 arg2 => some (arg1, arg2)
    | _ => none

/-- The argument lists of the `GetApplications` calls of a history, in order. -/
def applicationsCalls (history : List (Op App Org Spc Inc Qry)) : List (List Qry) :=
  history.filterMap fun op =>
    match op with
    | Op.GetApplications arg1 => some arg1
    | _ => none

/-- The argument lists of the `GetOrganizations` calls of a history, in order. -/
def organizationsCalls (history : List (Op App Org Spc Inc Qry)) : List (List Qry) :=
  history.filterMap fun op =>
    match op with
    | Op.GetOrganizations arg1 => some arg1
    | _ => none

/-- The argument lists of the `GetSpaces` calls of a history, in order. -/
def spacesCalls (history : List (Op App Org Spc Inc Qry)) : List (List Qry) :=
  history.filterMap fun op =>
    match op with
    | Op.GetSpaces arg1 => some arg1
    | _ => none

/-- The `GetApplications` stub in force, read from the operations most recent first: the
argument of the latest `GetApplicationsCalls`, unless a `GetApplicationsReturns` or
`GetApplicationsReturnsOnCall` came after it. -/
def latestStub : List (Op App Org Spc Inc Qry) → Option (List Qry → AppsResult App)
  | [] => none
  | Op.GetApplicationsCalls stub :: _ => stub
  | Op.GetApplicationsReturns _ :: _ => none
  | Op.GetApplicationsReturnsOnCall _ _ :: _ => none
  | _ :: earlier => latestStub earlier

/-- The triple registered for call `k`, read from the operations most recent first: that of
the latest `GetApplicationsReturnsOnCall(k, ...)`. -/
def latestOnCall (k : Int) : List (Op App Org Spc Inc Qry) → Option (AppsResult App)
  | [] => none
  | Op.GetApplicationsReturnsOnCall i r :: earlier =>
    if i = k then some r else latestOnCall k earlier
  | _ :: earlier => latestOnCall k earlier

/-- The triple last set by `GetApplicationsReturns`, read from the operations most recent
first; the zero values when it was never set. -/
def latestReturns : List (Op App Org Spc Inc Qry) → AppsResult App
  | [] => ([], [], none)
  | Op.GetApplicationsReturns r :: _ => r
  | _ :: earlier => latestReturns earlier

/-- The result expected of a `GetApplications` call made after `history`, by the fixed
precedence: stub, then the triple registered for this call number, then the default triple. -/
def expectedApplications (history : List (Op App Org Spc Inc Qry)) (arg1 : List Qry) :
    AppsResult App :=
  match latestStub history.reverse with
  | some stub => stub arg1
  | none =>
    match latestOnCall ((applicationsCalls history).length : Int) history.reverse with
    | some r => r
    | none => latestReturns history.reverse

/-- A history: a default triple, a triple for call 1, one `GetApplications` call and one
`GetOrganizations` call. -/
def exampleHistory : List (Op String String String String String) :=
  [Op.GetApplicationsReturns (["default"], [], none),
   Op.GetApplicationsReturnsOnCall 1 (["second"], ["w"], none),
   Op.GetApplications ["q0"],
   Op.GetOrganizations ["o0"]]

end

end Fakes

/-! ## The rendering loop -/

theorem displayGrouping_congr (p q : ServicePlanAccess) (data : List (List String))
    (h : p.BrokerName = q.BrokerName) : displayGrouping p data = displayGrouping q data := by
  simp [displayGrouping, h]

/-- The indexed loop never reads out of range and computes `renderFrom`. -/
theorem renderPlans_eq (pre suf : List ServicePlanAccess) :
    ∀ (data : List (List String)) (ui : List Call),
      renderPlans (pre ++ suf) pre.length suf data ui = some (ui ++ renderFrom suf data) := by
  induction suf generalizing pre with
  | nil => intro data ui; simp [renderPlans, renderFrom]
  | cons plan rest ih =>
    intro data ui
    have hstep := ih (pre ++ [plan])
    simp only [List.append_assoc, List.singleton_append, List.length_append,
      List.length_singleton] at hstep
    cases rest with
    | nil =>
      simp [renderPlans, renderFrom]
    | cons next rest =>
      have hlook : (pre ++ plan :: next :: rest)[pre.length + 1]? = some next := by
        rw [List.getElem?_append_right (by omega)]
        simp
      have hlen : ¬ (pre.length + 1 = (pre ++ plan :: next :: rest).length) := by
        simp
      unfold renderPlans
      simp only [hlen, decide_False, hlook, Option.map_some', Bool.false_eq_true, if_false]
      by_cases hb : plan.BrokerName = next.BrokerName
      · simp [hb, hstep, renderFrom]
      · simp [hb, hstep, renderFrom]

/-! ## Broker runs -/

theorem brokerRuns_cons_of_runs (plan next : ServicePlanAccess)
    (rest run : List ServicePlanAccess) (runs : List (List ServicePlanAccess))
    (h : brokerRuns rest = (next :: run) :: runs) :
    brokerRuns (plan :: rest) =
      if plan.BrokerName = next.BrokerName then (plan :: next :: run) :: runs
      else [plan] :: (next :: run) :: runs := by
  rw [brokerRuns, h]

/-- The first run of a non-empty list starts with its first record and is constant in
`BrokerName`. -/
theorem brokerRuns_head (plan : ServicePlanAccess) (rest : List ServicePlanAccess) :
    ∃ run runs, brokerRuns (plan :: rest) = (plan :: run) :: runs ∧
      ∀ q ∈ run, q.BrokerName = plan.BrokerName := by
  induction rest generalizing plan with
  | nil => exact ⟨[], [], by simp [brokerRuns], by simp⟩
  | cons next rest ih =>
    obtain ⟨run, runs, hruns, hconst⟩ := ih next
    have hcons := brokerRuns_cons_of_runs plan next _ run runs hruns
    by_cases hb : plan.BrokerName = next.BrokerName
    · refine ⟨next :: run, runs, by simp [hcons, hb], ?_⟩
      intro q hq
      rcases List.mem_cons.mp hq with rfl | hq
      · exact hb.symm
      · rw [hconst q hq, hb]
    · exact ⟨[], (next :: run) :: runs, by simp [hcons, hb], by simp⟩

/-- Unfolding of `brokerRuns` on a list of at least two records. -/
theorem brokerRuns_cons_cons (plan next : ServicePlanAccess) (rest : List ServicePlanAccess) :
    ∃ run runs, brokerRuns (next :: rest) = (next :: run) :: runs ∧
      (∀ q ∈ run, q.BrokerName = next.BrokerName) ∧
      brokerRuns (plan :: next :: rest) =
        if plan.BrokerName = next.BrokerName then (plan :: next :: run) :: runs
        else [plan] :: (next :: run) :: runs := by
  obtain ⟨run, runs, hruns, hconst⟩ := brokerRuns_head next rest
  exact ⟨run, runs, hruns, hconst, brokerRuns_cons_of_runs plan next _ run runs hruns⟩

/-- The runs concatenate to the input: nothing dropped, duplicated or re-ordered. -/
theorem brokerRuns_flatten (recs : List ServicePlanAccess) :
    (brokerRuns recs).flatten = recs := by
  induction recs with
  | nil => simp [brokerRuns]
  | cons plan rest ih =>
    cases rest with
    | nil => simp [brokerRuns]
    | cons next rest =>
      obtain ⟨run, runs, hruns, -, hcons⟩ := brokerRuns_cons_cons plan next rest
      rw [hruns] at ih
      rw [hcons]
      split_ifs
      · simpa using ih
      · simpa using ih

/-- No run is empty. -/
theorem brokerRuns_ne_nil (recs : List ServicePlanAccess) :
    ∀ run ∈ brokerRuns recs, run ≠ [] := by
  induction recs with
  | nil => simp [brokerRuns]
  | cons plan rest ih =>
    cases rest with
    | nil => simp [brokerRuns]
    | cons next rest =>
      obtain ⟨run, runs, hruns, -, hcons⟩ := brokerRuns_cons_cons plan next rest
      rw [hruns] at ih
      rw [hcons]
      intro r hr
      split_ifs at hr
      · rcases List.mem_cons.mp hr with rfl | hr
        · simp
        · exact ih r (List.mem_cons_of_mem _ hr)
      · rcases List.mem_cons.mp hr with rfl | hr
        · simp
        · exact ih r hr

/-- All records of a run carry the broker of the run. -/
theorem brokerRuns_const (recs : List ServicePlanAccess) :
    ∀ run ∈ brokerRuns recs, ∀ p ∈ run, p.BrokerName = runBroker run := by
  induction recs with
  | nil => simp [brokerRuns]
  | cons plan rest ih =>
    cases rest with
    | nil => simp [brokerRuns, runBroker]
    | cons next rest =>
      obtain ⟨run, runs, hruns, hconst, hcons⟩ := brokerRuns_cons_cons plan next rest
      rw [hruns] at ih
      rw [hcons]
      intro r hr p hp
      split_ifs at hr with hb
      · rcases List.mem_cons.mp hr with rfl | hr
        · simp only [runBroker]
          rcases List.mem_cons.mp hp with rfl | hp
          · rfl
          · rcases List.mem_cons.mp hp with rfl | hp
            · exact hb.symm
            · rw [hconst p hp, hb]
        · exact ih r (List.mem_cons_of_mem _ hr) p hp
      · rcases List.mem_cons.mp hr with rfl | hr
        · simp only [runBroker]
          rw [List.mem_singleton.mp hp]
        · exact ih r hr p hp

/-- Consecutive runs belong to different brokers: each run is maximal. -/
theorem brokerRuns_chain (recs : List ServicePlanAccess) :
    List.Chain' (fun r₁ r₂ => runBroker r₁ ≠ runBroker r₂) (brokerRuns recs) := by
  induction recs with
  | nil => simp [brokerRuns]
  | cons plan rest ih =>
    cases rest with
    | nil => simp [brokerRuns]
    | cons next rest =>
      obtain ⟨run, runs, hruns, -, hcons⟩ := brokerRuns_cons_cons plan next rest
      rw [hruns] at ih
      rw [hcons]
      split_ifs with hb
      · cases runs with
        | nil => simp
        | cons r rs =>
          rw [List.chain'_cons] at ih ⊢
          exact ⟨by simpa [runBroker, hb] using ih.1, ih.2⟩
      · rw [List.chain'_cons]
        exact ⟨by simpa [runBroker] using hb, ih⟩

/-- The loop renders the runs one after the other; `data` holds the rows of the run that is
being collected. -/
theorem renderFrom_runs (rest : List ServicePlanAccess) :
    ∀ (plan : ServicePlanAccess) (data : List (List String))
      (run : List ServicePlanAccess) (runs : List (List ServicePlanAccess)),
      brokerRuns (plan :: rest) = (plan :: run) :: runs →
      renderFrom (plan :: rest) data =
        displayGrouping plan
          ((if data.length = 0 then [getTableHeaders plan] else data)
            ++ (plan :: run).map planRow)
          ++ runs.flatMap renderRun := by
  induction rest with
  | nil =>
    intro plan data run runs h
    simp only [brokerRuns, List.cons.injEq, true_and] at h
    obtain ⟨rfl, rfl⟩ := h
    simp [renderFrom]
  | cons next rest ih =>
    intro plan data run runs h
    obtain ⟨run', runs', hruns, hconst, hcons⟩ := brokerRuns_cons_cons plan next rest
    rw [hcons] at h
    by_cases hb : plan.BrokerName = next.BrokerName
    · simp only [hb, if_true, List.cons.injEq, true_and] at h
      obtain ⟨rfl, rfl⟩ := h
      have := ih next
        ((if data.length = 0 then [getTableHeaders plan] else data) ++ [planRow plan])
        run' runs' hruns
      simp only [renderFrom, hb, ne_eq, not_true_eq_false, if_false]
      rw [this, displayGrouping_congr next plan _ hb.symm]
      simp
    · simp only [hb, if_false, List.cons.injEq, true_and] at h
      obtain ⟨rfl, rfl⟩ := h
      have := ih next [] run' runs' hruns
      simp only [renderFrom, hb, ne_eq, not_false_eq_true, if_true]
      rw [this]
      simp [renderRun, displayGrouping, runBroker, runTable, brokerHeaderTemplate]

/-- Started with no collected rows, the loop renders exactly the runs of its input. -/
theorem renderFrom_nil_data (recs : List ServicePlanAccess) :
    renderFrom recs [] = (brokerRuns recs).flatMap renderRun := by
  cases recs with
  | nil => simp [renderFrom, brokerRuns]
  | cons plan rest =>
    obtain ⟨run, runs, hruns, -⟩ := brokerRuns_head plan rest
    rw [renderFrom_runs rest plan [] run runs hruns, hruns]
    simp [renderRun, displayGrouping, runBroker, runTable, brokerHeaderTemplate]

/-! ## The outcomes of `Execute` -/

theorem displayMessage_err (cmd : ServiceAccessCommand) (ui : List Call) (e : GoError)
    (h : cmd.Config.CurrentUser.2 = some e) :
    cmd.displayMessage ui = (ui ++ [Call.CurrentUser], some e) := by
  simp [ServiceAccessCommand.displayMessage, h]

theorem displayMessage_ok (cmd : ServiceAccessCommand) (ui : List Call)
    (h : cmd.Config.CurrentUser.2 = none) :
    cmd.displayMessage ui =
      (ui ++ [Call.CurrentUser,
        Call.DisplayTextWithFlavor
          (getServiceAccessMessage.template
            { Broker := cmd.Broker, ServiceOffering := cmd.ServiceOffering,
              Organization := cmd.Organization, User := cmd.Config.CurrentUser.1.Name })
          [("Broker", cmd.Broker), ("ServiceOffering", cmd.ServiceOffering),
           ("Org", cmd.Organization), ("CurrentUser", cmd.Config.CurrentUser.1.Name)],
        Call.DisplayNewline], none) := by
  simp [ServiceAccessCommand.displayMessage, h, getServiceAccessMessage.displayMessage]

/-- Outcome when the target check fails. -/
theorem Execute_of_checkTarget_err (cmd : ServiceAccessCommand) (args : List String)
    (e : GoError) (hct : cmd.SharedActor.CheckTarget false false = some e) :
    cmd.Execute args = some ⟨[Call.CheckTarget false false], some e⟩ := by
  simp [ServiceAccessCommand.Execute, hct]

/-- Outcome when the user lookup fails. -/
theorem Execute_of_currentUser_err (cmd : ServiceAccessCommand) (args : List String)
    (e : GoError) (hct : cmd.SharedActor.CheckTarget false false = none)
    (hcu : cmd.Config.CurrentUser.2 = some e) :
    cmd.Execute args = some ⟨[Call.CheckTarget false false, Call.CurrentUser], some e⟩ := by
  simp [ServiceAccessCommand.Execute, hct, displayMessage_err cmd _ e hcu]

/-- Outcome when the actor fails. -/
theorem Execute_of_actor_err (cmd : ServiceAccessCommand) (args : List String)
    (recs : List ServicePlanAccess) (warnings : List String) (e : GoError)
    (hct : cmd.SharedActor.CheckTarget false false = none)
    (hcu : cmd.Config.CurrentUser.2 = none)
    (hgsa : cmd.Actor.GetServiceAccess cmd.ServiceOffering cmd.Broker cmd.Organization
      = (recs, warnings, some e)) :
    cmd.Execute args =
      some ⟨progressCalls cmd ++ [Call.DisplayWarnings warnings], some e⟩ := by
  simp [ServiceAccessCommand.Execute, hct, displayMessage_ok cmd _ hcu, hgsa, progressCalls]

/-- Outcome when the actor returns no record and no error. -/
theorem Execute_of_no_plans (cmd : ServiceAccessCommand) (args : List String)
    (warnings : List String)
    (hct : cmd.SharedActor.CheckTarget false false = none)
    (hcu : cmd.Config.CurrentUser.2 = none)
    (hgsa : cmd.Actor.GetServiceAccess cmd.ServiceOffering cmd.Broker cmd.Organization
      = ([], warnings, none)) :
    cmd.Execute args =
      some ⟨progressCalls cmd ++
        [Call.DisplayWarnings warnings, Call.DisplayText "No service plans found." []],
        none⟩ := by
  simp [ServiceAccessCommand.Execute, hct, displayMessage_ok cmd _ hcu, hgsa, progressCalls]

/-- Outcome when the actor returns records and no error: the loop does not panic and renders
the broker runs. -/
theorem Execute_of_plans (cmd : ServiceAccessCommand) (args : List String)
    (recs : List ServicePlanAccess) (warnings : List String)
    (hct : cmd.SharedActor.CheckTarget false false = none)
    (hcu : cmd.Config.CurrentUser.2 = none)
    (hgsa : cmd.Actor.GetServiceAccess cmd.ServiceOffering cmd.Broker cmd.Organization
      = (recs, warnings, none))
    (hne : recs ≠ []) :
    cmd.Execute args =
      some ⟨progressCalls cmd ++ [Call.DisplayWarnings warnings]
        ++ (brokerRuns recs).flatMap renderRun, none⟩ := by
  have hloop := fun ui => renderPlans_eq [] recs [] ui
  simp only [List.nil_append, List.length_nil] at hloop
  have hlen : recs.length ≠ 0 := by
    intro h; exact hne (List.length_eq_zero.mp h)
  simp [ServiceAccessCommand.Execute, hct, displayMessage_ok cmd _ hcu, hgsa, hlen, hloop,
    renderFrom_nil_data, progressCalls]

/-! ## Reading the log of a rendering -/

theorem displayedWarnings_progressCalls (cmd : ServiceAccessCommand) :
    displayedWarnings (progressCalls cmd) = [] := by
  simp [displayedWarnings, progressCalls]

theorem brokerHeaders_progressCalls (cmd : ServiceAccessCommand) :
    brokerHeaders (progressCalls cmd) = [] := by
  simp [brokerHeaders, progressCalls]

theorem renderedTables_progressCalls (cmd : ServiceAccessCommand) :
    renderedTables (progressCalls cmd) = [] := by
  simp [renderedTables, progressCalls]

theorem displayedWarnings_runs (runs : List (List ServicePlanAccess)) :
    displayedWarnings (runs.flatMap renderRun) = [] := by
  induction runs with
  | nil => simp [displayedWarnings]
  | cons run runs ih =>
    simp only [displayedWarnings, List.flatMap_cons, List.filterMap_append] at ih ⊢
    rw [ih]
    simp [renderRun]

theorem brokerHeaders_runs (runs : List (List ServicePlanAccess)) :
    brokerHeaders (runs.flatMap renderRun) = runs.map runBroker := by
  induction runs with
  | nil => simp [brokerHeaders]
  | cons run runs ih =>
    simp only [brokerHeaders, List.flatMap_cons, List.filterMap_append, List.map_cons] at ih ⊢
    rw [ih]
    simp [renderRun, List.lookup]

theorem renderedTables_runs (runs : List (List ServicePlanAccess)) :
    renderedTables (runs.flatMap renderRun) = runs.map runTable := by
  induction runs with
  | nil => simp [renderedTables]
  | cons run runs ih =>
    simp only [renderedTables, List.flatMap_cons, List.filterMap_append, List.map_cons] at ih ⊢
    rw [ih]
    simp [renderRun]

theorem noPlansText_runs (runs : List (List ServicePlanAccess)) :
    ∀ c ∈ runs.flatMap renderRun, c.isNoPlansText = false := by
  intro c hc
  obtain ⟨run, -, hrun⟩ := List.mem_flatMap.mp hc
  simp only [renderRun, List.mem_cons, List.mem_singleton, List.not_mem_nil, or_false] at hrun
  rcases hrun with rfl | rfl | rfl
  · simp only [Call.isNoPlansText, brokerHeaderTemplate]; decide
  · rfl
  · rfl

/-- The data rows of the tables of the runs, concatenated, are the rows of the input. -/
theorem runTable_rows (recs : List ServicePlanAccess) :
    ((brokerRuns recs).map runTable).flatMap List.tail = recs.map planRow := by
  have hne := brokerRuns_ne_nil recs
  have hflat := brokerRuns_flatten recs
  generalize brokerRuns recs = runs at hne hflat
  subst hflat
  induction runs with
  | nil => simp
  | cons run runs ih =>
    have hrun : run ≠ [] := hne run (List.mem_cons_self _ _)
    have ih := ih (fun r hr => hne r (List.mem_cons_of_mem _ hr))
    cases run with
    | nil => exact absurd rfl hrun
    | cons first run =>
      simp only [List.map_cons, List.flatMap_cons, List.flatten_cons, List.map_append]
      rw [ih]
      simp [runTable]

/-- The headers and tables read off the log of a successful rendering. -/
theorem Execute_plans_log (cmd : ServiceAccessCommand) (args : List String)
    (recs : List ServicePlanAccess) (warnings : List String)
    (hct : cmd.SharedActor.CheckTarget false false = none)
    (hcu : cmd.Config.CurrentUser.2 = none)
    (hgsa : cmd.Actor.GetServiceAccess cmd.ServiceOffering cmd.Broker cmd.Organization
      = (recs, warnings, none))
    (hne : recs ≠ []) :
    ∃ out, cmd.Execute args = some out ∧ out.err = none ∧
      brokerHeaders out.calls = (brokerRuns recs).map runBroker ∧
      renderedTables out.calls = (brokerRuns recs).map runTable := by
  refine ⟨_, Execute_of_plans cmd args recs warnings hct hcu hgsa hne, rfl, ?_, ?_⟩
  · have h1 := brokerHeaders_progressCalls cmd
    have h2 := brokerHeaders_runs (brokerRuns recs)
    simp only [brokerHeaders, List.filterMap_append] at h1 h2 ⊢
    rw [h1, h2]
    simp
  · have h1 := renderedTables_progressCalls cmd
    have h2 := renderedTables_runs (brokerRuns recs)
    simp only [renderedTables, List.filterMap_append] at h1 h2 ⊢
    rw [h1, h2]
    simp

/-! ## Collaborator calls in a rendering -/

theorem renderRun_collaborators (runs : List (List ServicePlanAccess)) :
    ∀ c ∈ runs.flatMap renderRun,
      c.isCheckTarget = false ∧ c.isCurrentUser = false ∧ c.isGetServiceAccess = false := by
  intro c hc
  obtain ⟨run, -, hrun⟩ := List.mem_flatMap.mp hc
  simp only [renderRun, List.mem_cons, List.mem_singleton, List.not_mem_nil, or_false] at hrun
  rcases hrun with rfl | rfl | rfl <;> exact ⟨rfl, rfl, rfl⟩

theorem countP_runs_checkTarget (runs : List (List ServicePlanAccess)) :
    (runs.flatMap renderRun).countP Call.isCheckTarget = 0 := by
  rw [List.countP_eq_zero]
  intro c hc
  simp [(renderRun_collaborators runs c hc).1]

theorem countP_runs_currentUser (runs : List (List ServicePlanAccess)) :
    (runs.flatMap renderRun).countP Call.isCurrentUser = 0 := by
  rw [List.countP_eq_zero]
  intro c hc
  simp [(renderRun_collaborators runs c hc).2.1]

theorem countP_runs_getServiceAccess (runs : List (List ServicePlanAccess)) :
    (runs.flatMap renderRun).countP Call.isGetServiceAccess = 0 := by
  rw [List.countP_eq_zero]
  intro c hc
  simp [(renderRun_collaborators runs c hc).2.2]

/-- Whatever the collaborators answer, `Execute` returns with one of five logs. -/
theorem Execute_cases (cmd : ServiceAccessCommand) (args : List String) :
    (∃ e, cmd.SharedActor.CheckTarget false false = some e ∧
      cmd.Execute args = some ⟨[Call.CheckTarget false false], some e⟩) ∨
    (∃ e, cmd.SharedActor.CheckTarget false false = none ∧
      cmd.Config.CurrentUser.2 = some e ∧
      cmd.Execute args = some ⟨[Call.CheckTarget false false, Call.CurrentUser], some e⟩) ∨
    (∃ recs warnings e, cmd.SharedActor.CheckTarget false false = none ∧
      cmd.Config.CurrentUser.2 = none ∧
      cmd.Actor.GetServiceAccess cmd.ServiceOffering cmd.Broker cmd.Organization
        = (recs, warnings, some e) ∧
      cmd.Execute args =
        some ⟨progressCalls cmd ++ [Call.DisplayWarnings warnings], some e⟩) ∨
    (∃ warnings, cmd.SharedActor.CheckTarget false false = none ∧
      cmd.Config.CurrentUser.2 = none ∧
      cmd.Actor.GetServiceAccess cmd.ServiceOffering cmd.Broker cmd.Organization
        = ([], warnings, none) ∧
      cmd.Execute args =
        some ⟨progressCalls cmd ++
          [Call.DisplayWarnings warnings, Call.DisplayText "No service plans found." []],
          none⟩) ∨
    (∃ recs warnings, cmd.SharedActor.CheckTarget false false = none ∧
      cmd.Config.CurrentUser.2 = none ∧
      cmd.Actor.GetServiceAccess cmd.ServiceOffering cmd.Broker cmd.Organization
        = (recs, warnings, none) ∧ recs ≠ [] ∧
      cmd.Execute args =
        some ⟨progressCalls cmd ++ [Call.DisplayWarnings warnings]
          ++ (brokerRuns recs).flatMap renderRun, none⟩) := by
  cases hct : cmd.SharedActor.CheckTarget false false with
  | some e => exact Or.inl ⟨e, rfl, Execute_of_checkTarget_err cmd args e hct⟩
  | none =>
    cases hcu : cmd.Config.CurrentUser.2 with
    | some e => exact Or.inr (Or.inl ⟨e, rfl, rfl, Execute_of_currentUser_err cmd args e hct hcu⟩)
    | none =>
      obtain ⟨recs, warnings, err, hgsa⟩ :
          ∃ recs warnings err,
            cmd.Actor.GetServiceAccess cmd.ServiceOffering cmd.Broker cmd.Organization
              = (recs, warnings, err) := ⟨_, _, _, rfl⟩
      cases err with
      | some e =>
        exact Or.inr (Or.inr (Or.inl
          ⟨recs, warnings, e, rfl, rfl, hgsa, Execute_of_actor_err cmd args _ _ e hct hcu hgsa⟩))
      | none =>
        cases recs with
        | nil =>
          exact Or.inr (Or.inr (Or.inr (Or.inl
            ⟨warnings, rfl, rfl, hgsa, Execute_of_no_plans cmd args _ hct hcu hgsa⟩)))
        | cons plan rest =>
          exact Or.inr (Or.inr (Or.inr (Or.inr
            ⟨plan :: rest, warnings, rfl, rfl, hgsa, by simp,
              Execute_of_plans cmd args _ _ hct hcu hgsa (by simp)⟩)))

/-! ## Runs under the grouping invariant -/

theorem BrokersContiguous.tail {p : ServicePlanAccess} {rest : List ServicePlanAccess}
    (h : BrokersContiguous (p :: rest)) : BrokersContiguous rest := by
  intro k hk j hj i hi heq
  have := h (k + 1) (by simpa using hk) (j + 1) (by omega) (i + 1) (by omega)
  simpa using this (by simpa using heq)

/-- Under the grouping invariant, once the broker changes it does not come back. -/
theorem BrokersContiguous.not_later {p next : ServicePlanAccess}
    {rest : List ServicePlanAccess} (h : BrokersContiguous (p :: next :: rest))
    (hb : p.BrokerName ≠ next.BrokerName) :
    ∀ q ∈ next :: rest, q.BrokerName ≠ p.BrokerName := by
  intro q hq hqb
  rcases List.mem_cons.mp hq with rfl | hq
  · exact hb hqb.symm
  · obtain ⟨m, hm, hget⟩ := List.getElem_of_mem hq
    have := h (m + 2) (by simp; omega) 1 (by omega) 0 (by omega)
    simp only [List.getElem?_cons_zero, List.getElem?_cons_succ, Option.map_some',
      List.getElem?_eq_getElem hm, hget, Option.some.injEq] at this
    exact hb (this hqb.symm).symm

theorem mem_of_mem_brokerRuns {recs run : List ServicePlanAccess}
    (hrun : run ∈ brokerRuns recs) : ∀ q ∈ run, q ∈ recs := by
  intro q hq
  have : q ∈ (brokerRuns recs).flatten := List.mem_flatten.mpr ⟨run, hrun, hq⟩
  rwa [brokerRuns_flatten] at this

theorem runBroker_mem {recs run : List ServicePlanAccess} (hrun : run ∈ brokerRuns recs) :
    ∃ q ∈ recs, q.BrokerName = runBroker run := by
  cases run with
  | nil => exact absurd rfl (brokerRuns_ne_nil recs _ hrun)
  | cons first run =>
    exact ⟨first, mem_of_mem_brokerRuns hrun first (List.mem_cons_self _ _), rfl⟩

theorem mem_runBrokers_iff (recs : List ServicePlanAccess) (b : String) :
    b ∈ (brokerRuns recs).map runBroker ↔ b ∈ recs.map (fun p => p.BrokerName) := by
  constructor
  · intro hb
    obtain ⟨run, hrun, rfl⟩ := List.mem_map.mp hb
    obtain ⟨q, hq, hqb⟩ := runBroker_mem hrun
    exact List.mem_map.mpr ⟨q, hq, hqb⟩
  · intro hb
    obtain ⟨q, hq, rfl⟩ := List.mem_map.mp hb
    rw [← brokerRuns_flatten recs] at hq
    obtain ⟨run, hrun, hqrun⟩ := List.mem_flatten.mp hq
    exact List.mem_map.mpr ⟨run, hrun, (brokerRuns_const recs run hrun q hqrun).symm⟩

/-- Under the grouping invariant the runs have pairwise distinct brokers and each run holds
all the records of its broker. -/
theorem brokerRuns_of_contiguous (recs : List ServicePlanAccess)
    (h : BrokersContiguous recs) :
    ((brokerRuns recs).map runBroker).Nodup ∧
      ∀ run ∈ brokerRuns recs, run = recordsOfBroker recs (runBroker run) := by
  induction recs with
  | nil => simp [brokerRuns]
  | cons p rest ih =>
    cases rest with
    | nil => simp [brokerRuns, recordsOfBroker, runBroker]
    | cons next rest =>
      obtain ⟨run, runs, hruns, hconst, hcons⟩ := brokerRuns_cons_cons p next rest
      obtain ⟨hnodup, hall⟩ := ih h.tail
      rw [hruns] at hnodup hall
      simp only [List.map_cons, List.nodup_cons, runBroker] at hnodup
      rw [hcons]
      by_cases hb : p.BrokerName = next.BrokerName
      · simp only [hb, if_true]
        refine ⟨by simpa [runBroker, hb] using hnodup, ?_⟩
        intro r hr
        rcases List.mem_cons.mp hr with rfl | hr
        · have := hall (next :: run) (List.mem_cons_self _ _)
          simp only [runBroker] at this ⊢
          simp only [recordsOfBroker] at this ⊢
          rw [List.filter_cons_of_pos (by simp), hb, ← this]
        · have hne : runBroker r ≠ p.BrokerName := by
            intro heq
            exact hnodup.1 (List.mem_map.mpr ⟨r, hr, by rw [heq, hb]⟩)
          have := hall r (List.mem_cons_of_mem _ hr)
          simp only [recordsOfBroker] at this ⊢
          rw [List.filter_cons_of_neg (by simpa using fun h => hne h.symm), ← this]
      · simp only [hb, if_false]
        have hlater := h.not_later hb
        have hfresh : ∀ r ∈ (next :: run) :: runs, runBroker r ≠ p.BrokerName := by
          intro r hr heq
          rw [← hruns] at hr
          obtain ⟨q, hq, hqb⟩ := runBroker_mem hr
          exact hlater q hq (hqb.trans heq)
        refine ⟨?_, ?_⟩
        · simp only [List.map_cons, List.nodup_cons, runBroker]
          refine ⟨?_, hnodup⟩
          intro hmem
          rcases List.mem_cons.mp hmem with heq | hmem
          · exact hb heq
          · obtain ⟨r, hr, hrb⟩ := List.mem_map.mp hmem
            exact hfresh r (List.mem_cons_of_mem _ hr) hrb
        · intro r hr
          rcases List.mem_cons.mp hr with rfl | hr
          · simp only [runBroker, recordsOfBroker]
            rw [List.filter_cons_of_pos (by simp)]
            have : List.filter (fun q => decide (q.BrokerName = p.BrokerName))
                (next :: rest) = [] := by
              rw [List.filter_eq_nil_iff]
              intro q hq
              simpa using hlater q hq
            rw [this]
          · have := hall r hr
            simp only [recordsOfBroker] at this ⊢
            rw [List.filter_cons_of_neg (by simpa using fun h => hfresh r hr h.symm), ← this]

theorem mem_zip_map_self {α β : Type} (f : α → β) (l : List α) :
    ∀ pair ∈ l.zip (l.map f), pair.1 ∈ l ∧ pair.2 = f pair.1 := by
  induction l with
  | nil => simp
  | cons a l ih =>
    intro pair hpair
    simp only [List.map_cons, List.zip_cons_cons, List.mem_cons] at hpair
    rcases hpair with rfl | hpair
    · exact ⟨List.mem_cons_self _ _, rfl⟩
    · exact ⟨List.mem_cons_of_mem _ (ih pair hpair).1, (ih pair hpair).2⟩

/-! ## Claims on `ServiceAccessCommand.Execute` -/

/-- C1: whatever `(records, warnings, err)` the actor returns after a successful target check
and user lookup, `Execute` returns and has passed exactly `warnings` to `UI.DisplayWarnings`,
exactly once; when `err` is non-nil it returns that `err`, its last call is that
`DisplayWarnings`, and it has rendered no `broker:` header, no table and no
`No service plans found.` text. -/
theorem execute_displays_warnings_once (cmd : ServiceAccessCommand) (args : List String)
    (recs : List ServicePlanAccess) (warnings : List String) (err : Option GoError)
    (hct : cmd.SharedActor.CheckTarget false false = none)
    (hcu : cmd.Config.CurrentUser.2 = none)
    (hgsa : cmd.Actor.GetServiceAccess cmd.ServiceOffering cmd.Broker cmd.Organization
      = (recs, warnings, err)) :
    ∃ out, cmd.Execute args = some out ∧
      displayedWarnings out.calls = [warnings] ∧
      (∀ e, err = some e →
        out.err = some e ∧
        out.calls = progressCalls cmd ++ [Call.DisplayWarnings warnings] ∧
        ∀ c ∈ out.calls,
          c.isBrokerHeader = false ∧ c.isTable = false ∧ c.isNoPlansText = false) := by
  cases err with
  | some e =>
    refine ⟨_, Execute_of_actor_err cmd args recs warnings e hct hcu hgsa, ?_, ?_⟩
    · simp [displayedWarnings, progressCalls]
    · intro e' he
      cases he
      refine ⟨rfl, rfl, ?_⟩
      intro c hc
      simp only [progressCalls, List.cons_append, List.nil_append, List.mem_cons,
        List.mem_singleton, List.not_mem_nil, or_false] at hc
      rcases hc with rfl | rfl | rfl | rfl | rfl | rfl <;> exact ⟨rfl, rfl, rfl⟩
  | none =>
    cases recs with
    | nil =>
      refine ⟨_, Execute_of_no_plans cmd args warnings hct hcu hgsa, ?_, ?_⟩
      · simp [displayedWarnings, progressCalls]
      · intro e he; cases he
    | cons plan rest =>
      refine ⟨_, Execute_of_plans cmd args _ warnings hct hcu hgsa (by simp), ?_, ?_⟩
      · have h1 := displayedWarnings_progressCalls cmd
        have h2 := displayedWarnings_runs (brokerRuns (plan :: rest))
        simp only [displayedWarnings, List.filterMap_append] at h1 h2 ⊢
        rw [h1, h2]
        simp
      · intro e he; cases he

/-- Witness for C1, scenario C of the spec: one warning, then a failure. -/
theorem execute_displays_warnings_once_witness :
    ∃ out, (commandAnswering (scenarioA, ["w1"], some ⟨"transport failure"⟩)).Execute []
        = some out ∧
      displayedWarnings out.calls = [["w1"]] ∧
      (∀ e, some (GoError.mk "transport failure") = some e →
        out.err = some e ∧
        out.calls = progressCalls (commandAnswering
            (scenarioA, ["w1"], some ⟨"transport failure"⟩))
          ++ [Call.DisplayWarnings ["w1"]] ∧
        ∀ c ∈ out.calls,
          c.isBrokerHeader = false ∧ c.isTable = false ∧ c.isNoPlansText = false) :=
  execute_displays_warnings_once
    (commandAnswering (scenarioA, ["w1"], some ⟨"transport failure"⟩)) []
    scenarioA ["w1"] (some ⟨"transport failure"⟩) rfl rfl rfl

/-- C2: `accessFromVisibilityType` maps `"public"` to `"all"`, `"admin"` to `"none"` and every
other tag, the empty string included, to `"limited"`; so the result is `"all"` only for
`"public"` and `"none"` only for `"admin"`. -/
theorem accessFromVisibilityType_mapping (tag : String) :
    accessFromVisibilityType "public" = "all" ∧
    accessFromVisibilityType "admin" = "none" ∧
    accessFromVisibilityType "" = "limited" ∧
    (tag ≠ "public" → tag ≠ "admin" → accessFromVisibilityType tag = "limited") ∧
    (accessFromVisibilityType tag = "all" ↔ tag = "public") ∧
    (accessFromVisibilityType tag = "none" ↔ tag = "admin") ∧
    (accessFromVisibilityType tag = "all" ∨ accessFromVisibilityType tag = "none" ∨
      accessFromVisibilityType tag = "limited") := by
  refine ⟨by decide, by decide, by decide, ?_, ?_, ?_, ?_⟩
  · intro h1 h2; simp [accessFromVisibilityType, h1, h2]
  · by_cases h1 : tag = "public"
    · subst h1; simp [accessFromVisibilityType]
    · by_cases h2 : tag = "admin"
      · subst h2; simp only [h1, iff_false]; decide
      · simp only [accessFromVisibilityType, h1, h2, if_false, iff_false]; decide
  · by_cases h1 : tag = "public"
    · subst h1; decide
    · by_cases h2 : tag = "admin"
      · subst h2; simp [accessFromVisibilityType]
      · simp only [accessFromVisibilityType, h1, h2, if_false, iff_false]; decide
  · by_cases h1 : tag = "public"
    · subst h1; exact Or.inl (by decide)
    · by_cases h2 : tag = "admin"
      · subst h2; exact Or.inr (Or.inl (by decide))
      · exact Or.inr (Or.inr (by simp [accessFromVisibilityType, h1, h2]))

/-- C3: for a non-empty record list returned without error, `Execute` returns without error
and, after the progress calls and the warnings, renders the maximal runs of equal
`BrokerName` one after the other, each as header, table, newline: the runs are non-empty,
constant in `BrokerName`, consecutive runs differ in `BrokerName`, and they concatenate to
the input; the k-th header names the k-th run's broker, the k-th table is one header row
followed by the rows of the k-th run, and the data rows of all tables together are the
rows of the input in input order. -/
theorem execute_renders_broker_runs (cmd : ServiceAccessCommand) (args : List String)
    (recs : List ServicePlanAccess) (warnings : List String)
    (hct : cmd.SharedActor.CheckTarget false false = none)
    (hcu : cmd.Config.CurrentUser.2 = none)
    (hgsa : cmd.Actor.GetServiceAccess cmd.ServiceOffering cmd.Broker cmd.Organization
      = (recs, warnings, none))
    (hne : recs ≠ []) :
    ((brokerRuns recs).flatten = recs ∧
      (∀ run ∈ brokerRuns recs, run ≠ [] ∧ ∀ p ∈ run, p.BrokerName = runBroker run) ∧
      List.Chain' (fun r₁ r₂ => runBroker r₁ ≠ runBroker r₂) (brokerRuns recs)) ∧
    ∃ out, cmd.Execute args = some out ∧ out.err = none ∧
      out.calls = progressCalls cmd ++ [Call.DisplayWarnings warnings]
        ++ (brokerRuns recs).flatMap (fun run =>
          [Call.DisplayText "broker: \x7b\x7b.BrokerName\x7d\x7d"
            [("BrokerName", runBroker run)],
           Call.DisplayTableWithHeader "   " (runTable run) 3,
           Call.DisplayNewline]) ∧
      brokerHeaders out.calls = (brokerRuns recs).map runBroker ∧
      renderedTables out.calls = (brokerRuns recs).map runTable ∧
      (∀ run ∈ brokerRuns recs, ∃ header,
        runTable run = header :: run.map (fun plan =>
          [plan.ServiceOfferingName, plan.ServicePlanName,
           accessFromVisibilityType plan.VisibilityType,
           ",".intercalate plan.VisibilityDetails])) ∧
      (renderedTables out.calls).flatMap List.tail = recs.map planRow := by
  refine ⟨⟨brokerRuns_flatten recs,
    fun run hrun => ⟨brokerRuns_ne_nil recs run hrun, brokerRuns_const recs run hrun⟩,
    brokerRuns_chain recs⟩, ?_⟩
  refine ⟨_, Execute_of_plans cmd args recs warnings hct hcu hgsa hne, rfl, rfl, ?_, ?_, ?_, ?_⟩
  · have h1 := brokerHeaders_progressCalls cmd
    have h2 := brokerHeaders_runs (brokerRuns recs)
    simp only [brokerHeaders, List.filterMap_append] at h1 h2 ⊢
    rw [h1, h2]
    simp
  · have h1 := renderedTables_progressCalls cmd
    have h2 := renderedTables_runs (brokerRuns recs)
    simp only [renderedTables, List.filterMap_append] at h1 h2 ⊢
    rw [h1, h2]
    simp
  · intro run hrun
    cases run with
    | nil => exact absurd rfl (brokerRuns_ne_nil recs _ hrun)
    | cons first run => exact ⟨getTableHeaders first, rfl⟩
  · have h1 := renderedTables_progressCalls cmd
    have h2 := renderedTables_runs (brokerRuns recs)
    simp only [renderedTables, List.filterMap_append] at h1 h2 ⊢
    rw [h1, h2]
    simpa using runTable_rows recs

/-- Witness for C3, scenario A of the spec: two runs, `b1` with two plans and `b2` with one. -/
theorem execute_renders_broker_runs_witness :
    ((brokerRuns scenarioA).flatten = scenarioA ∧
      (∀ run ∈ brokerRuns scenarioA,
        run ≠ [] ∧ ∀ p ∈ run, p.BrokerName = runBroker run) ∧
      List.Chain' (fun r₁ r₂ => runBroker r₁ ≠ runBroker r₂) (brokerRuns scenarioA)) ∧
    ∃ out, (commandAnswering (scenarioA, [], none)).Execute [] = some out ∧ out.err = none ∧
      out.calls = progressCalls (commandAnswering (scenarioA, [], none))
        ++ [Call.DisplayWarnings []]
        ++ (brokerRuns scenarioA).flatMap (fun run =>
          [Call.DisplayText "broker: \x7b\x7b.BrokerName\x7d\x7d"
            [("BrokerName", runBroker run)],
           Call.DisplayTableWithHeader "   " (runTable run) 3,
           Call.DisplayNewline]) ∧
      brokerHeaders out.calls = (brokerRuns scenarioA).map runBroker ∧
      renderedTables out.calls = (brokerRuns scenarioA).map runTable ∧
      (∀ run ∈ brokerRuns scenarioA, ∃ header,
        runTable run = header :: run.map (fun plan =>
          [plan.ServiceOfferingName, plan.ServicePlanName,
           accessFromVisibilityType plan.VisibilityType,
           ",".intercalate plan.VisibilityDetails])) ∧
      (renderedTables out.calls).flatMap List.tail = scenarioA.map planRow :=
  execute_renders_broker_runs (commandAnswering (scenarioA, [], none)) [] scenarioA []
    rfl rfl rfl (by decide)

/-- C5: when the actor returns an empty record list and no error, `Execute` returns no error
and its calls are the progress calls, the warnings and one `No service plans found.` text:
that text is rendered exactly once, and no `broker:` header and no table is rendered. -/
theorem execute_no_plans_found (cmd : ServiceAccessCommand) (args : List String)
    (warnings : List String)
    (hct : cmd.SharedActor.CheckTarget false false = none)
    (hcu : cmd.Config.CurrentUser.2 = none)
    (hgsa : cmd.Actor.GetServiceAccess cmd.ServiceOffering cmd.Broker cmd.Organization
      = ([], warnings, none)) :
    ∃ out, cmd.Execute args = some out ∧ out.err = none ∧
      out.calls = progressCalls cmd ++
        [Call.DisplayWarnings warnings, Call.DisplayText "No service plans found." []] ∧
      out.calls.countP Call.isNoPlansText = 1 ∧
      out.calls.countP Call.isBrokerHeader = 0 ∧
      out.calls.countP Call.isTable = 0 ∧
      brokerHeaders out.calls = [] ∧
      renderedTables out.calls = [] := by
  refine ⟨_, Execute_of_no_plans cmd args warnings hct hcu hgsa, rfl, rfl, ?_, ?_, ?_, ?_, ?_⟩
  · simp [progressCalls, Call.isNoPlansText]
  · simp [progressCalls, Call.isBrokerHeader, brokerHeaderTemplate]
  · simp [progressCalls, Call.isTable]
  · simp only [brokerHeaders, progressCalls, brokerHeaderTemplate]
    simp
  · simp [renderedTables, progressCalls]

/-- Witness for C5, scenario B of the spec: no record, no warning, no error. -/
theorem execute_no_plans_found_witness :
    ∃ out, (commandAnswering ([], [], none)).Execute [] = some out ∧ out.err = none ∧
      out.calls = progressCalls (commandAnswering ([], [], none)) ++
        [Call.DisplayWarnings [], Call.DisplayText "No service plans found." []] ∧
      out.calls.countP Call.isNoPlansText = 1 ∧
      out.calls.countP Call.isBrokerHeader = 0 ∧
      out.calls.countP Call.isTable = 0 ∧
      brokerHeaders out.calls = [] ∧
      renderedTables out.calls = [] :=
  execute_no_plans_found (commandAnswering ([], [], none)) [] [] rfl rfl rfl

/-- C7: `Execute` always returns, and the error it returns is the first failure among
`CheckTarget`, `CurrentUser` and `GetServiceAccess`, in that order, unchanged; so it is
non-nil exactly when one of the three fails. When `CheckTarget` or `CurrentUser` fails, the
actor is not called and nothing is displayed. Each of the three is called at most once. -/
theorem execute_surfaces_first_error (cmd : ServiceAccessCommand) (args : List String) :
    ∃ out, cmd.Execute args = some out ∧
      out.err = firstFailure (cmd.SharedActor.CheckTarget false false)
        cmd.Config.CurrentUser.2
        (cmd.Actor.GetServiceAccess cmd.ServiceOffering cmd.Broker cmd.Organization).2.2 ∧
      (out.err ≠ none ↔
        (cmd.SharedActor.CheckTarget false false ≠ none ∨
          cmd.Config.CurrentUser.2 ≠ none ∨
          (cmd.Actor.GetServiceAccess cmd.ServiceOffering cmd.Broker
            cmd.Organization).2.2 ≠ none)) ∧
      ((cmd.SharedActor.CheckTarget false false ≠ none ∨ cmd.Config.CurrentUser.2 ≠ none) →
        out.calls.countP Call.isGetServiceAccess = 0 ∧
        out.calls.countP Call.isDisplay = 0) ∧
      out.calls.countP Call.isCheckTarget ≤ 1 ∧
      out.calls.countP Call.isCurrentUser ≤ 1 ∧
      out.calls.countP Call.isGetServiceAccess ≤ 1 := by
  rcases Execute_cases cmd args with
    ⟨e, hct, h⟩ | ⟨e, hct, hcu, h⟩ | ⟨recs, warnings, e, hct, hcu, hgsa, h⟩ |
    ⟨warnings, hct, hcu, hgsa, h⟩ | ⟨recs, warnings, hct, hcu, hgsa, -, h⟩
  · refine ⟨_, h, ?_, ?_, ?_, ?_, ?_, ?_⟩ <;>
      simp [hct, firstFailure, Call.isGetServiceAccess, Call.isDisplay, Call.isCheckTarget,
        Call.isCurrentUser]
  · refine ⟨_, h, ?_, ?_, ?_, ?_, ?_, ?_⟩ <;>
      simp [hct, hcu, firstFailure, Call.isGetServiceAccess, Call.isDisplay,
        Call.isCheckTarget, Call.isCurrentUser]
  · refine ⟨_, h, ?_, ?_, ?_, ?_, ?_, ?_⟩ <;>
      simp [hct, hcu, hgsa, firstFailure, progressCalls, Call.isGetServiceAccess,
        Call.isDisplay, Call.isCheckTarget, Call.isCurrentUser]
  · refine ⟨_, h, ?_, ?_, ?_, ?_, ?_, ?_⟩ <;>
      simp [hct, hcu, hgsa, firstFailure, progressCalls, Call.isGetServiceAccess,
        Call.isDisplay, Call.isCheckTarget, Call.isCurrentUser]
  · refine ⟨_, h, ?_, ?_, ?_, ?_, ?_, ?_⟩
    · simp [hct, hcu, hgsa, firstFailure]
    · simp [hct, hcu, hgsa]
    · simp [hct, hcu]
    · simp [List.countP_append, countP_runs_checkTarget, progressCalls, Call.isCheckTarget]
    · simp [List.countP_append, countP_runs_currentUser, progressCalls, Call.isCurrentUser]
    · simp [List.countP_append, countP_runs_getServiceAccess, progressCalls,
        Call.isGetServiceAccess]

theorem runTable_tail (run : List ServicePlanAccess) :
    (runTable run).tail = run.map planRow := by
  cases run <;> simp [runTable]

theorem length_runs_eq_distinct (recs : List ServicePlanAccess)
    (hnodup : ((brokerRuns recs).map runBroker).Nodup) :
    (brokerRuns recs).length = (distinctBrokers recs).length := by
  have hperm : List.Perm ((brokerRuns recs).map runBroker) (distinctBrokers recs) := by
    unfold distinctBrokers
    rw [List.perm_ext_iff_of_nodup hnodup (List.nodup_dedup _)]
    intro b
    rw [mem_runBrokers_iff, List.mem_dedup]
  simpa using hperm.length_eq

/-- C4: for a non-empty record list that satisfies the grouping invariant and is returned
without error, `Execute` renders as many tables as there are distinct `BrokerName` values,
the rendered `broker:` headers are pairwise distinct and name exactly the brokers of the
list, and the table under the header of broker `b` is a header row followed by the rows of
all the records of `b` in the list and of no other record: the runs `Execute` renders are
the classes of grouping by broker name globally. -/
theorem execute_groups_by_broker (cmd : ServiceAccessCommand) (args : List String)
    (recs : List ServicePlanAccess) (warnings : List String)
    (hct : cmd.SharedActor.CheckTarget false false = none)
    (hcu : cmd.Config.CurrentUser.2 = none)
    (hgsa : cmd.Actor.GetServiceAccess cmd.ServiceOffering cmd.Broker cmd.Organization
      = (recs, warnings, none))
    (hne : recs ≠ [])
    (hcontig : BrokersContiguous recs) :
    ∃ out, cmd.Execute args = some out ∧ out.err = none ∧
      (renderedTables out.calls).length = (distinctBrokers recs).length ∧
      (brokerHeaders out.calls).length = (distinctBrokers recs).length ∧
      (brokerHeaders out.calls).Nodup ∧
      (∀ b, b ∈ brokerHeaders out.calls ↔ ∃ p ∈ recs, p.BrokerName = b) ∧
      brokerRuns recs = (brokerHeaders out.calls).map (recordsOfBroker recs) ∧
      renderedTables out.calls =
        (brokerHeaders out.calls).map (fun b => runTable (recordsOfBroker recs b)) ∧
      (renderedTables out.calls).map List.tail =
        (brokerHeaders out.calls).map (fun b => (recordsOfBroker recs b).map planRow) := by
  obtain ⟨out, hout, herr, hheaders, htables⟩ :=
    Execute_plans_log cmd args recs warnings hct hcu hgsa hne
  obtain ⟨hnodup, hall⟩ := brokerRuns_of_contiguous recs hcontig
  have hlen := length_runs_eq_distinct recs hnodup
  have hruns : brokerRuns recs = ((brokerRuns recs).map runBroker).map (recordsOfBroker recs) := by
    rw [List.map_map]
    conv_lhs => rw [← List.map_id (brokerRuns recs)]
    exact List.map_congr_left (fun run hrun => by simpa using hall run hrun)
  have htab : (brokerRuns recs).map runTable =
      ((brokerRuns recs).map runBroker).map (fun b => runTable (recordsOfBroker recs b)) := by
    rw [List.map_map]
    exact List.map_congr_left (fun run hrun => by
      simp only [Function.comp_apply]
      rw [← hall run hrun])
  refine ⟨out, hout, herr, ?_, ?_, ?_, ?_, ?_, ?_, ?_⟩
  · rw [htables]; simpa using hlen
  · rw [hheaders]; simpa using hlen
  · rw [hheaders]; exact hnodup
  · intro b
    rw [hheaders, mem_runBrokers_iff]
    simp
  · rw [hheaders]; exact hruns
  · rw [htables, hheaders]; exact htab
  · rw [htables, hheaders, htab, List.map_map]
    exact List.map_congr_left (fun b _ => by
      simp only [Function.comp_apply]
      exact runTable_tail _)

/-- Witness for C4, scenario A of the spec: brokers `b1`, `b1`, `b2`. -/
theorem execute_groups_by_broker_witness :
    BrokersContiguous scenarioA ∧
    ∃ out, (commandAnswering (scenarioA, [], none)).Execute [] = some out ∧ out.err = none ∧
      (renderedTables out.calls).length = (distinctBrokers scenarioA).length ∧
      (brokerHeaders out.calls).length = (distinctBrokers scenarioA).length ∧
      (brokerHeaders out.calls).Nodup ∧
      (∀ b, b ∈ brokerHeaders out.calls ↔ ∃ p ∈ scenarioA, p.BrokerName = b) ∧
      brokerRuns scenarioA = (brokerHeaders out.calls).map (recordsOfBroker scenarioA) ∧
      renderedTables out.calls =
        (brokerHeaders out.calls).map (fun b => runTable (recordsOfBroker scenarioA b)) ∧
      (renderedTables out.calls).map List.tail =
        (brokerHeaders out.calls).map
          (fun b => (recordsOfBroker scenarioA b).map planRow) :=
  ⟨by decide,
    execute_groups_by_broker (commandAnswering (scenarioA, [], none)) [] scenarioA []
      rfl rfl rfl (by decide) (by decide)⟩

/-- C6, as stated, fails: for one broker with an organization-scoped plan followed by a
space-scoped plan, `Execute` renders a single table headed `service, plan, access, orgs`
that holds the row of the space-scoped record. -/
theorem columns_follow_every_record_fails :
    (commandAnswering (mixedRun, [], none)).Execute [] = some ⟨mixedRunCalls, none⟩ ∧
    renderedTables mixedRunCalls =
      [[["service", "plan", "access", "orgs"],
        ["offering1", "plan1", "limited", "org1"],
        ["offering1", "plan2", "limited", "space1"]]] ∧
    ¬ ∀ out, (commandAnswering (mixedRun, [], none)).Execute [] = some out →
      ColumnsFollowEveryRecord mixedRun out.calls := by
  have hexec : (commandAnswering (mixedRun, [], none)).Execute []
      = some ⟨mixedRunCalls, none⟩ := by decide
  exact ⟨hexec, by decide, fun h => absurd (h _ hexec) (by decide)⟩

/-- C6, amended: for a non-empty record list returned without error, each rendered table,
paired with the run it renders, starts with the header row `getTableHeaders` gives for the
first record of the run, followed by the rows of the run; so a record is rendered under the
header row of its own classification whenever it agrees with the first record of its run on
being `space`. `getTableHeaders` is `service, plan, access, space` exactly for the tag
`space` and `service, plan, access, orgs` for every other tag. -/
theorem columns_follow_first_record (cmd : ServiceAccessCommand) (args : List String)
    (recs : List ServicePlanAccess) (warnings : List String)
    (hct : cmd.SharedActor.CheckTarget false false = none)
    (hcu : cmd.Config.CurrentUser.2 = none)
    (hgsa : cmd.Actor.GetServiceAccess cmd.ServiceOffering cmd.Broker cmd.Organization
      = (recs, warnings, none))
    (hne : recs ≠ []) :
    (∀ plan : ServicePlanAccess,
      (plan.VisibilityType = "space" →
        getTableHeaders plan = ["service", "plan", "access", "space"]) ∧
      (plan.VisibilityType ≠ "space" →
        getTableHeaders plan = ["service", "plan", "access", "orgs"])) ∧
    ∃ out, cmd.Execute args = some out ∧
      (renderedTables out.calls).length = (brokerRuns recs).length ∧
      ∀ pair ∈ (brokerRuns recs).zip (renderedTables out.calls),
        ∃ first rest, pair.1 = first :: rest ∧
          pair.2 = getTableHeaders first :: pair.1.map planRow ∧
          ∀ p ∈ pair.1,
            (p.VisibilityType = "space" ↔ first.VisibilityType = "space") →
            pair.2.head? = some (getTableHeaders p) := by
  refine ⟨fun plan => ⟨fun h => by simp [getTableHeaders, h],
    fun h => by simp [getTableHeaders, h]⟩, ?_⟩
  obtain ⟨out, hout, -, -, htables⟩ :=
    Execute_plans_log cmd args recs warnings hct hcu hgsa hne
  refine ⟨out, hout, by rw [htables]; simp, ?_⟩
  rw [htables]
  intro pair hpair
  obtain ⟨hmem, htab⟩ := mem_zip_map_self runTable (brokerRuns recs) pair hpair
  obtain ⟨run, table⟩ := pair
  simp only at hmem htab
  subst htab
  cases run with
  | nil => exact absurd rfl (brokerRuns_ne_nil recs _ hmem)
  | cons first rest =>
    refine ⟨first, rest, rfl, rfl, ?_⟩
    intro p _ hiff
    simp only [runTable, List.head?_cons, Option.some.injEq, getTableHeaders]
    by_cases hp : p.VisibilityType = "space"
    · simp [hp, hiff.mp hp]
    · have : ¬ first.VisibilityType = "space" := fun h => hp (hiff.mpr h)
      simp [hp, this]

/-- Witness for C6 amended, on the mixed run. -/
theorem columns_follow_first_record_witness :
    (∀ plan : ServicePlanAccess,
      (plan.VisibilityType = "space" →
        getTableHeaders plan = ["service", "plan", "access", "space"]) ∧
      (plan.VisibilityType ≠ "space" →
        getTableHeaders plan = ["service", "plan", "access", "orgs"])) ∧
    ∃ out, (commandAnswering (mixedRun, [], none)).Execute [] = some out ∧
      (renderedTables out.calls).length = (brokerRuns mixedRun).length ∧
      ∀ pair ∈ (brokerRuns mixedRun).zip (renderedTables out.calls),
        ∃ first rest, pair.1 = first :: rest ∧
          pair.2 = getTableHeaders first :: pair.1.map planRow ∧
          ∀ p ∈ pair.1,
            (p.VisibilityType = "space" ↔ first.VisibilityType = "space") →
            pair.2.head? = some (getTableHeaders p) :=
  columns_follow_first_record (commandAnswering (mixedRun, [], none)) [] mixedRun []
    rfl rfl rfl (by decide)

/-- C10: the progress message is one `DisplayTextWithFlavor` call whose template is
`Getting service access`, then the scope, then ` as {{.CurrentUser}}...`; the scope is empty
when the three filters are empty and otherwise ` for ` followed by one fragment per non-empty
filter, joined with ` and `, in the order broker, service, organization; the template is the
same for any two messages whose filters are empty in the same places. -/
theorem progress_message_template (msg : getServiceAccessMessage) (ui : List Call) :
    msg.displayMessage ui = ui ++ [Call.DisplayTextWithFlavor msg.template
      [("Broker", msg.Broker), ("ServiceOffering", msg.ServiceOffering),
       ("Org", msg.Organization), ("CurrentUser", msg.User)]] ∧
    msg.resources = scopeFragments msg.Broker msg.ServiceOffering msg.Organization ∧
    msg.template = "Getting service access"
      ++ scopeText msg.Broker msg.ServiceOffering msg.Organization
      ++ " as \x7b\x7b.CurrentUser\x7d\x7d..." ∧
    (scopeText msg.Broker msg.ServiceOffering msg.Organization = "" ↔
      (msg.Broker = "" ∧ msg.ServiceOffering = "" ∧ msg.Organization = "")) ∧
    (msg.Broker ≠ "" → msg.ServiceOffering ≠ "" → msg.Organization ≠ "" →
      msg.template = "Getting service access for broker \x7b\x7b.Broker\x7d\x7d and service \x7b\x7b.ServiceOffering\x7d\x7d and organization \x7b\x7b.Org\x7d\x7d as \x7b\x7b.CurrentUser\x7d\x7d...") ∧
    (∀ other : getServiceAccessMessage,
      (other.Broker = "" ↔ msg.Broker = "") →
      (other.ServiceOffering = "" ↔ msg.ServiceOffering = "") →
      (other.Organization = "" ↔ msg.Organization = "") →
      other.template = msg.template) := by
  have hres : ∀ m : getServiceAccessMessage,
      m.resources = scopeFragments m.Broker m.ServiceOffering m.Organization := by
    intro m
    by_cases hb : m.Broker = "" <;> by_cases hs : m.ServiceOffering = "" <;>
      by_cases ho : m.Organization = "" <;>
      simp [getServiceAccessMessage.resources, scopeFragments, hb, hs, ho]
  have hfrag : ∀ b s o b2 s2 o2 : String, (b2 = "" ↔ b = "") → (s2 = "" ↔ s = "") →
      (o2 = "" ↔ o = "") → scopeFragments b2 s2 o2 = scopeFragments b s o := by
    intro b s o b2 s2 o2 h1 h2 h3
    by_cases hb : b = "" <;> by_cases hs : s = "" <;> by_cases ho : o = "" <;>
      simp [scopeFragments, hb, hs, ho, h1.mpr, h2.mpr, h3.mpr, h1, h2, h3]
  have htpl : ∀ m : getServiceAccessMessage, m.template = "Getting service access"
      ++ scopeText m.Broker m.ServiceOffering m.Organization
      ++ " as \x7b\x7b.CurrentUser\x7d\x7d..." := by
    intro m
    simp only [getServiceAccessMessage.template, scopeText, hres m]
    by_cases hf : scopeFragments m.Broker m.ServiceOffering m.Organization = []
    · simp [hf]
    · have : (scopeFragments m.Broker m.ServiceOffering m.Organization).length ≠ 0 := by
        simpa using hf
      simp [hf]
  refine ⟨rfl, hres msg, htpl msg, ?_, ?_, ?_⟩
  · by_cases hb : msg.Broker = "" <;> by_cases hs : msg.ServiceOffering = "" <;>
      by_cases ho : msg.Organization = "" <;>
      simp [scopeText, scopeFragments, hb, hs, ho] <;> decide
  · intro hb hs ho
    rw [htpl msg]
    simp [scopeText, scopeFragments, hb, hs, ho]
    decide
  · intro other h1 h2 h3
    rw [htpl other, htpl msg]
    simp only [scopeText, hfrag _ _ _ _ _ _ h1 h2 h3]

/-! ## The fake: recorded calls -/

namespace Fakes

section
variable {App Org Spc Inc Qry : Type}

theorem invocationsOf_recordInvocation (fake : FakeCloudControllerClient App Org Spc Inc Qry)
    (key : String) (args : List (Arg Qry)) (key2 : String) :
    (fake.recordInvocation key args).invocationsOf key2 =
      if key2 = key then fake.invocationsOf key ++ [args] else fake.invocationsOf key2 := by
  unfold FakeCloudControllerClient.recordInvocation FakeCloudControllerClient.invocationsOf
    FakeCloudControllerClient.Invocations
  by_cases hk : key2 = key
  · subst hk
    cases hinv : fake.invocations with
    | none => simp [GoMap.made]
    | some m =>
      by_cases hlen : ((m key2).getD []).length = 0
      · have hnil : (m key2).getD [] = [] := List.length_eq_zero.mp hlen
        simp [GoMap.made, hlen, hnil]
      · simp [GoMap.made, hlen]
  · cases hinv : fake.invocations with
    | none => simp [GoMap.made, hk, Function.update_noteq]
    | some m =>
      by_cases hlen : ((m key).getD []).length = 0
      · simp [GoMap.made, hlen, hk, Function.update_noteq]
      · simp [GoMap.made, hlen, hk, Function.update_noteq]

/-- The state `GetApplicationByNameAndSpace` leaves behind: the arguments appended to the method's record and
to the invocations, whichever way the result is chosen. -/
theorem GetApplicationByNameAndSpace_state (fake : FakeCloudControllerClient App Org Spc Inc Qry) (arg1 arg2 : String) :
    (fake.GetApplicationByNameAndSpace arg1 arg2).1 =
      FakeCloudControllerClient.recordInvocation
        { fake with getApplicationByNameAndSpaceArgsForCall := fake.getApplicationByNameAndSpaceArgsForCall ++ [(arg1, arg2)] }
        "GetApplicationByNameAndSpace" [Arg.str arg1, Arg.str arg2] := by
  unfold FakeCloudControllerClient.GetApplicationByNameAndSpace
  simp only
  split
  · rfl
  · split <;> rfl

/-- The state `GetApplications` leaves behind: the arguments appended to the method's record and
to the invocations, whichever way the result is chosen. -/
theorem GetApplications_state (fake : FakeCloudControllerClient App Org Spc Inc Qry) (arg1 : List Qry) :
    (fake.GetApplications arg1).1 =
      FakeCloudControllerClient.recordInvocation
        { fake with getApplicationsArgsForCall := fake.getApplicationsArgsForCall ++ [arg1] }
        "GetApplications" [Arg.queries arg1] := by
  unfold FakeCloudControllerClient.GetApplications
  simp only
  split
  · rfl
  · split <;> rfl

/-- The state `GetOrganizations` leaves behind: the arguments appended to the method's record and
to the invocations, whichever way the result is chosen. -/
theorem GetOrganizations_state (fake : FakeCloudControllerClient App Org Spc Inc Qry) (arg1 : List Qry) :
    (fake.GetOrganizations arg1).1 =
      FakeCloudControllerClient.recordInvocation
        { fake with getOrganizationsArgsForCall := fake.getOrganizationsArgsForCall ++ [arg1] }
        "GetOrganizations" [Arg.queries arg1] := by
  unfold FakeCloudControllerClient.GetOrganizations
  simp only
  split
  · rfl
  · split <;> rfl

/-- The state `GetSpaces` leaves behind: the arguments appended to the method's record and
to the invocations, whichever way the result is chosen. -/
theorem GetSpaces_state (fake : FakeCloudControllerClient App Org Spc Inc Qry) (arg1 : List Qry) :
    (fake.GetSpaces arg1).1 =
      FakeCloudControllerClient.recordInvocation
        { fake with getSpacesArgsForCall := fake.getSpacesArgsForCall ++ [arg1] }
        "GetSpaces" [Arg.queries arg1] := by
  unfold FakeCloudControllerClient.GetSpaces
  simp only
  split
  · rfl
  · split <;> rfl

/-- One operation appends its own call, if it is one, to the record of its method and to
the invocations under its method name, and changes no other record. -/
theorem apply_records (fake : FakeCloudControllerClient App Org Spc Inc Qry)
    (op : Op App Org Spc Inc Qry) :
    (fake.apply op).getApplicationByNameAndSpaceArgsForCall =
      fake.getApplicationByNameAndSpaceArgsForCall ++ appByNameCalls [op] ∧
    (fake.apply op).getApplicationsArgsForCall =
      fake.getApplicationsArgsForCall ++ applicationsCalls [op] ∧
    (fake.apply op).getOrganizationsArgsForCall =
      fake.getOrganizationsArgsForCall ++ organizationsCalls [op] ∧
    (fake.apply op).getSpacesArgsForCall =
      fake.getSpacesArgsForCall ++ spacesCalls [op] ∧
    (fake.apply op).invocationsOf "GetApplicationByNameAndSpace" =
      fake.invocationsOf "GetApplicationByNameAndSpace" ++
        (appByNameCalls [op]).map (fun a => [Arg.str a.1, Arg.str a.2]) ∧
    (fake.apply op).invocationsOf "GetApplications" =
      fake.invocationsOf "GetApplications" ++
        (applicationsCalls [op]).map (fun a => [Arg.queries a]) ∧
    (fake.apply op).invocationsOf "GetOrganizations" =
      fake.invocationsOf "GetOrganizations" ++
        (organizationsCalls [op]).map (fun a => [Arg.queries a]) ∧
    (fake.apply op).invocationsOf "GetSpaces" =
      fake.invocationsOf "GetSpaces" ++
        (spacesCalls [op]).map (fun a => [Arg.queries a]) := by
  cases op with
  | GetApplicationByNameAndSpace arg1 arg2 =>
    simp only [FakeCloudControllerClient.apply, GetApplicationByNameAndSpace_state,
      invocationsOf_recordInvocation]
    refine ⟨?_, ?_, ?_, ?_, ?_, ?_, ?_, ?_⟩ <;>
      simp [FakeCloudControllerClient.recordInvocation, appByNameCalls, applicationsCalls,
        organizationsCalls, spacesCalls, FakeCloudControllerClient.invocationsOf,
        FakeCloudControllerClient.Invocations]
  | GetApplications arg1 =>
    simp only [FakeCloudControllerClient.apply, GetApplications_state,
      invocationsOf_recordInvocation]
    refine ⟨?_, ?_, ?_, ?_, ?_, ?_, ?_, ?_⟩ <;>
      simp [FakeCloudControllerClient.recordInvocation, appByNameCalls, applicationsCalls,
        organizationsCalls, spacesCalls, FakeCloudControllerClient.invocationsOf,
        FakeCloudControllerClient.Invocations]
  | GetOrganizations arg1 =>
    simp only [FakeCloudControllerClient.apply, GetOrganizations_state,
      invocationsOf_recordInvocation]
    refine ⟨?_, ?_, ?_, ?_, ?_, ?_, ?_, ?_⟩ <;>
      simp [FakeCloudControllerClient.recordInvocation, appByNameCalls, applicationsCalls,
        organizationsCalls, spacesCalls, FakeCloudControllerClient.invocationsOf,
        FakeCloudControllerClient.Invocations]
  | GetSpaces arg1 =>
    simp only [FakeCloudControllerClient.apply, GetSpaces_state,
      invocationsOf_recordInvocation]
    refine ⟨?_, ?_, ?_, ?_, ?_, ?_, ?_, ?_⟩ <;>
      simp [FakeCloudControllerClient.recordInvocation, appByNameCalls, applicationsCalls,
        organizationsCalls, spacesCalls, FakeCloudControllerClient.invocationsOf,
        FakeCloudControllerClient.Invocations]
  | _ =>
    simp [FakeCloudControllerClient.apply, appByNameCalls, applicationsCalls,
      organizationsCalls, spacesCalls, FakeCloudControllerClient.invocationsOf,
      FakeCloudControllerClient.Invocations,
      FakeCloudControllerClient.GetApplicationByNameAndSpaceCalls,
      FakeCloudControllerClient.GetApplicationByNameAndSpaceReturns,
      FakeCloudControllerClient.GetApplicationByNameAndSpaceReturnsOnCall,
      FakeCloudControllerClient.GetApplicationsCalls,
      FakeCloudControllerClient.GetApplicationsReturns,
      FakeCloudControllerClient.GetApplicationsReturnsOnCall,
      FakeCloudControllerClient.GetOrganizationsCalls,
      FakeCloudControllerClient.GetOrganizationsReturns,
      FakeCloudControllerClient.GetOrganizationsReturnsOnCall,
      FakeCloudControllerClient.GetSpacesCalls,
      FakeCloudControllerClient.GetSpacesReturns,
      FakeCloudControllerClient.GetSpacesReturnsOnCall]

/-- A history appends its calls, in order, to the records of the state it starts from. -/
theorem run_records (history : List (Op App Org Spc Inc Qry)) :
    ∀ fake : FakeCloudControllerClient App Org Spc Inc Qry,
    (fake.run history).getApplicationByNameAndSpaceArgsForCall =
      fake.getApplicationByNameAndSpaceArgsForCall ++ appByNameCalls history ∧
    (fake.run history).getApplicationsArgsForCall =
      fake.getApplicationsArgsForCall ++ applicationsCalls history ∧
    (fake.run history).getOrganizationsArgsForCall =
      fake.getOrganizationsArgsForCall ++ organizationsCalls history ∧
    (fake.run history).getSpacesArgsForCall =
      fake.getSpacesArgsForCall ++ spacesCalls history ∧
    (fake.run history).invocationsOf "GetApplicationByNameAndSpace" =
      fake.invocationsOf "GetApplicationByNameAndSpace" ++
        (appByNameCalls history).map (fun a => [Arg.str a.1, Arg.str a.2]) ∧
    (fake.run history).invocationsOf "GetApplications" =
      fake.invocationsOf "GetApplications" ++
        (applicationsCalls history).map (fun a => [Arg.queries a]) ∧
    (fake.run history).invocationsOf "GetOrganizations" =
      fake.invocationsOf "GetOrganizations" ++
        (organizationsCalls history).map (fun a => [Arg.queries a]) ∧
    (fake.run history).invocationsOf "GetSpaces" =
      fake.invocationsOf "GetSpaces" ++
        (spacesCalls history).map (fun a => [Arg.queries a]) := by
  induction history with
  | nil =>
    intro fake
    simp [FakeCloudControllerClient.run, appByNameCalls, applicationsCalls,
      organizationsCalls, spacesCalls]
  | cons op history ih =>
    intro fake
    obtain ⟨h1, h2, h3, h4, h5, h6, h7, h8⟩ := ih (fake.apply op)
    obtain ⟨s1, s2, s3, s4, s5, s6, s7, s8⟩ := apply_records fake op
    have hrun : fake.run (op :: history) = (fake.apply op).run history := rfl
    have c1 : appByNameCalls (op :: history) = appByNameCalls [op] ++ appByNameCalls history := by
      simp only [appByNameCalls]
      rw [← List.filterMap_append]; rfl
    have c2 : applicationsCalls (op :: history)
        = applicationsCalls [op] ++ applicationsCalls history := by
      simp only [applicationsCalls]
      rw [← List.filterMap_append]; rfl
    have c3 : organizationsCalls (op :: history)
        = organizationsCalls [op] ++ organizationsCalls history := by
      simp only [organizationsCalls]
      rw [← List.filterMap_append]; rfl
    have c4 : spacesCalls (op :: history) = spacesCalls [op] ++ spacesCalls history := by
      simp only [spacesCalls]
      rw [← List.filterMap_append]; rfl
    rw [hrun, h1, h2, h3, h4, h5, h6, h7, h8, s1, s2, s3, s4, s5, s6, s7, s8, c1, c2, c3, c4]
    simp only [List.append_assoc, List.map_append, and_self]

end

end Fakes

/-! ## The fake: configured results -/

namespace Fakes

section
variable {App Org Spc Inc Qry : Type}

theorem GoMap.lookup_made {κ ν : Type} (m : GoMap κ ν) (k : κ) : m.made k = m.lookup k := by
  cases m <;> rfl

/-- The result of `GetApplications`, read from the state before the call. -/
theorem GetApplications_result (fake : FakeCloudControllerClient App Org Spc Inc Qry)
    (arg1 : List Qry) :
    (fake.GetApplications arg1).2 =
      match fake.GetApplicationsStub with
      | some stub => stub arg1
      | none =>
        match fake.getApplicationsReturnsOnCall.lookup
            (fake.getApplicationsArgsForCall.length : Int) with
        | some r => r
        | none => fake.getApplicationsReturns := by
  unfold FakeCloudControllerClient.GetApplications
  simp only [FakeCloudControllerClient.recordInvocation]
  cases fake.GetApplicationsStub with
  | some stub => rfl
  | none =>
    cases fake.getApplicationsReturnsOnCall.lookup
        (fake.getApplicationsArgsForCall.length : Int) <;> rfl

/-- One operation changes the `GetApplications` configuration as the readers say. -/
theorem apply_config (fake : FakeCloudControllerClient App Org Spc Inc Qry)
    (op : Op App Org Spc Inc Qry) (earlier : List (Op App Org Spc Inc Qry))
    (hstub : fake.GetApplicationsStub = latestStub earlier)
    (hcall : ∀ k, fake.getApplicationsReturnsOnCall.lookup k = latestOnCall k earlier)
    (hret : fake.getApplicationsReturns = latestReturns earlier) :
    (fake.apply op).GetApplicationsStub = latestStub (op :: earlier) ∧
    (∀ k, (fake.apply op).getApplicationsReturnsOnCall.lookup k
      = latestOnCall k (op :: earlier)) ∧
    (fake.apply op).getApplicationsReturns = latestReturns (op :: earlier) := by
  cases op with
  | GetApplicationByNameAndSpace arg1 arg2 =>
    simp only [FakeCloudControllerClient.apply, GetApplicationByNameAndSpace_state]
    exact ⟨by simpa [FakeCloudControllerClient.recordInvocation, latestStub] using hstub,
      fun k => by simpa [FakeCloudControllerClient.recordInvocation, latestOnCall] using hcall k,
      by simpa [FakeCloudControllerClient.recordInvocation, latestReturns] using hret⟩
  | GetApplications arg1 =>
    simp only [FakeCloudControllerClient.apply, GetApplications_state]
    exact ⟨by simpa [FakeCloudControllerClient.recordInvocation, latestStub] using hstub,
      fun k => by simpa [FakeCloudControllerClient.recordInvocation, latestOnCall] using hcall k,
      by simpa [FakeCloudControllerClient.recordInvocation, latestReturns] using hret⟩
  | GetOrganizations arg1 =>
    simp only [FakeCloudControllerClient.apply, GetOrganizations_state]
    exact ⟨by simpa [FakeCloudControllerClient.recordInvocation, latestStub] using hstub,
      fun k => by simpa [FakeCloudControllerClient.recordInvocation, latestOnCall] using hcall k,
      by simpa [FakeCloudControllerClient.recordInvocation, latestReturns] using hret⟩
  | GetSpaces arg1 =>
    simp only [FakeCloudControllerClient.apply, GetSpaces_state]
    exact ⟨by simpa [FakeCloudControllerClient.recordInvocation, latestStub] using hstub,
      fun k => by simpa [FakeCloudControllerClient.recordInvocation, latestOnCall] using hcall k,
      by simpa [FakeCloudControllerClient.recordInvocation, latestReturns] using hret⟩
  | GetApplicationsCalls stub =>
    exact ⟨rfl, fun k => by simpa [FakeCloudControllerClient.apply,
        FakeCloudControllerClient.GetApplicationsCalls, latestOnCall] using hcall k,
      by simpa [FakeCloudControllerClient.apply,
        FakeCloudControllerClient.GetApplicationsCalls, latestReturns] using hret⟩
  | GetApplicationsReturns r =>
    exact ⟨rfl, fun k => by simpa [FakeCloudControllerClient.apply,
        FakeCloudControllerClient.GetApplicationsReturns, latestOnCall] using hcall k, rfl⟩
  | GetApplicationsReturnsOnCall i r =>
    refine ⟨rfl, fun k => ?_, by simpa [FakeCloudControllerClient.apply,
        FakeCloudControllerClient.GetApplicationsReturnsOnCall, latestReturns] using hret⟩
    simp only [FakeCloudControllerClient.apply,
      FakeCloudControllerClient.GetApplicationsReturnsOnCall, GoMap.lookup, latestOnCall]
    by_cases hik : i = k
    · subst hik; simp
    · rw [Function.update_noteq (fun h => hik h.symm), GoMap.lookup_made, hcall k]
      simp [hik]
  | GetApplicationByNameAndSpaceCalls stub =>
    exact ⟨by simpa [FakeCloudControllerClient.apply,
        FakeCloudControllerClient.GetApplicationByNameAndSpaceCalls, latestStub] using hstub,
      fun k => by simpa [FakeCloudControllerClient.apply,
        FakeCloudControllerClient.GetApplicationByNameAndSpaceCalls, latestOnCall]
          using hcall k,
      by simpa [FakeCloudControllerClient.apply,
        FakeCloudControllerClient.GetApplicationByNameAndSpaceCalls, latestReturns]
          using hret⟩
  | GetApplicationByNameAndSpaceReturns r =>
    exact ⟨by simpa [FakeCloudControllerClient.apply,
        FakeCloudControllerClient.GetApplicationByNameAndSpaceReturns, latestStub] using hstub,
      fun k => by simpa [FakeCloudControllerClient.apply,
        FakeCloudControllerClient.GetApplicationByNameAndSpaceReturns, latestOnCall]
          using hcall k,
      by simpa [FakeCloudControllerClient.apply,
        FakeCloudControllerClient.GetApplicationByNameAndSpaceReturns, latestReturns]
          using hret⟩
  | GetApplicationByNameAndSpaceReturnsOnCall i r =>
    exact ⟨by simpa [FakeCloudControllerClient.apply,
        FakeCloudControllerClient.GetApplicationByNameAndSpaceReturnsOnCall, latestStub]
          using hstub,
      fun k => by simpa [FakeCloudControllerClient.apply,
        FakeCloudControllerClient.GetApplicationByNameAndSpaceReturnsOnCall, latestOnCall]
          using hcall k,
      by simpa [FakeCloudControllerClient.apply,
        FakeCloudControllerClient.GetApplicationByNameAndSpaceReturnsOnCall, latestReturns]
          using hret⟩
  | GetOrganizationsCalls stub =>
    exact ⟨by simpa [FakeCloudControllerClient.apply,
        FakeCloudControllerClient.GetOrganizationsCalls, latestStub] using hstub,
      fun k => by simpa [FakeCloudControllerClient.apply,
        FakeCloudControllerClient.GetOrganizationsCalls, latestOnCall] using hcall k,
      by simpa [FakeCloudControllerClient.apply,
        FakeCloudControllerClient.GetOrganizationsCalls, latestReturns] using hret⟩
  | GetOrganizationsReturns r =>
    exact ⟨by simpa [FakeCloudControllerClient.apply,
        FakeCloudControllerClient.GetOrganizationsReturns, latestStub] using hstub,
      fun k => by simpa [FakeCloudControllerClient.apply,
        FakeCloudControllerClient.GetOrganizationsReturns, latestOnCall] using hcall k,
      by simpa [FakeCloudControllerClient.apply,
        FakeCloudControllerClient.GetOrganizationsReturns, latestReturns] using hret⟩
  | GetOrganizationsReturnsOnCall i r =>
    exact ⟨by simpa [FakeCloudControllerClient.apply,
        FakeCloudControllerClient.GetOrganizationsReturnsOnCall, latestStub] using hstub,
      fun k => by simpa [FakeCloudControllerClient.apply,
        FakeCloudControllerClient.GetOrganizationsReturnsOnCall, latestOnCall] using hcall k,
      by simpa [FakeCloudControllerClient.apply,
        FakeCloudControllerClient.GetOrganizationsReturnsOnCall, latestReturns] using hret⟩
  | GetSpacesCalls stub =>
    exact ⟨by simpa [FakeCloudControllerClient.apply,
        FakeCloudControllerClient.GetSpacesCalls, latestStub] using hstub,
      fun k => by simpa [FakeCloudControllerClient.apply,
        FakeCloudControllerClient.GetSpacesCalls, latestOnCall] using hcall k,
      by simpa [FakeCloudControllerClient.apply,
        FakeCloudControllerClient.GetSpacesCalls, latestReturns] using hret⟩
  | GetSpacesReturns r =>
    exact ⟨by simpa [FakeCloudControllerClient.apply,
        FakeCloudControllerClient.GetSpacesReturns, latestStub] using hstub,
      fun k => by simpa [FakeCloudControllerClient.apply,
        FakeCloudControllerClient.GetSpacesReturns, latestOnCall] using hcall k,
      by simpa [FakeCloudControllerClient.apply,
        FakeCloudControllerClient.GetSpacesReturns, latestReturns] using hret⟩
  | GetSpacesReturnsOnCall i r =>
    exact ⟨by simpa [FakeCloudControllerClient.apply,
        FakeCloudControllerClient.GetSpacesReturnsOnCall, latestStub] using hstub,
      fun k => by simpa [FakeCloudControllerClient.apply,
        FakeCloudControllerClient.GetSpacesReturnsOnCall, latestOnCall] using hcall k,
      by simpa [FakeCloudControllerClient.apply,
        FakeCloudControllerClient.GetSpacesReturnsOnCall, latestReturns] using hret⟩

/-- After a history on a fresh fake, the `GetApplications` configuration is what the readers
find in the history. -/
theorem run_config [Inhabited App] [Inhabited Inc] (history : List (Op App Org Spc Inc Qry)) :
    (FakeCloudControllerClient.fresh.run history).GetApplicationsStub
      = latestStub history.reverse ∧
    (∀ k, (FakeCloudControllerClient.fresh.run history).getApplicationsReturnsOnCall.lookup k
      = latestOnCall k history.reverse) ∧
    (FakeCloudControllerClient.fresh.run history).getApplicationsReturns
      = latestReturns history.reverse := by
  induction history using List.reverseRecOn with
  | nil =>
    exact ⟨rfl, fun _ => rfl, rfl⟩
  | append_singleton history op ih =>
    obtain ⟨h1, h2, h3⟩ := ih
    have hrun : (FakeCloudControllerClient.fresh.run (history ++ [op])
        : FakeCloudControllerClient App Org Spc Inc Qry)
        = (FakeCloudControllerClient.fresh.run history).apply op := by
      simp [FakeCloudControllerClient.run, List.foldl_append]
    rw [hrun, List.reverse_append, List.reverse_singleton, List.singleton_append]
    exact apply_config _ op _ h1 h2 h3

end

end Fakes

/-! ## Claims on `FakeCloudControllerClient` -/

namespace Fakes

section
variable {App Org Spc Inc Qry : Type}

theorem sliceIndex_natCast {α : Type} (s : List α) (i : Nat) (hi : i < s.length) :
    sliceIndex s (i : Int) = some s[i] := by
  simp [sliceIndex, List.getElem?_eq_getElem hi]

/-- C8: after any sequential history on a fresh fake, for each of the four methods the call
count is the number of calls of that method in the history, `ArgsForCall(i)` is the argument
list of its i-th call for every `i` below that number, and `Invocations()` holds under the
method name exactly those argument lists, in call order; and a call of one method, in any
state, appends to its own record only and leaves the records and invocations of the other
three methods unchanged. -/
theorem fake_records_calls [Inhabited App] [Inhabited Inc]
    (history : List (Op App Org Spc Inc Qry)) :
    ((FakeCloudControllerClient.fresh.run history).GetApplicationsCallCount
        = ((applicationsCalls history).length : Int) ∧
      (∀ (i : Nat) (hi : i < (applicationsCalls history).length),
        (FakeCloudControllerClient.fresh.run history).GetApplicationsArgsForCall (i : Int)
          = some (applicationsCalls history)[i]) ∧
      (FakeCloudControllerClient.fresh.run history).invocationsOf "GetApplications"
        = (applicationsCalls history).map (fun a => [Arg.queries a])) ∧
    ((FakeCloudControllerClient.fresh.run history).GetApplicationByNameAndSpaceCallCount
        = ((appByNameCalls history).length : Int) ∧
      (∀ (i : Nat) (hi : i < (appByNameCalls history).length),
        (FakeCloudControllerClient.fresh.run history).GetApplicationByNameAndSpaceArgsForCall
          (i : Int) = some (appByNameCalls history)[i]) ∧
      (FakeCloudControllerClient.fresh.run history).invocationsOf
        "GetApplicationByNameAndSpace"
        = (appByNameCalls history).map (fun a => [Arg.str a.1, Arg.str a.2])) ∧
    ((FakeCloudControllerClient.fresh.run history).GetOrganizationsCallCount
        = ((organizationsCalls history).length : Int) ∧
      (∀ (i : Nat) (hi : i < (organizationsCalls history).length),
        (FakeCloudControllerClient.fresh.run history).GetOrganizationsArgsForCall (i : Int)
          = some (organizationsCalls history)[i]) ∧
      (FakeCloudControllerClient.fresh.run history).invocationsOf "GetOrganizations"
        = (organizationsCalls history).map (fun a => [Arg.queries a])) ∧
    ((FakeCloudControllerClient.fresh.run history).GetSpacesCallCount
        = ((spacesCalls history).length : Int) ∧
      (∀ (i : Nat) (hi : i < (spacesCalls history).length),
        (FakeCloudControllerClient.fresh.run history).GetSpacesArgsForCall (i : Int)
          = some (spacesCalls history)[i]) ∧
      (FakeCloudControllerClient.fresh.run history).invocationsOf "GetSpaces"
        = (spacesCalls history).map (fun a => [Arg.queries a])) ∧
    (∀ (fake : FakeCloudControllerClient App Org Spc Inc Qry) (arg1 : List Qry),
      (fake.GetApplications arg1).1.getApplicationsArgsForCall
        = fake.getApplicationsArgsForCall ++ [arg1] ∧
      (fake.GetApplications arg1).1.getApplicationByNameAndSpaceArgsForCall
        = fake.getApplicationByNameAndSpaceArgsForCall ∧
      (fake.GetApplications arg1).1.getOrganizationsArgsForCall
        = fake.getOrganizationsArgsForCall ∧
      (fake.GetApplications arg1).1.getSpacesArgsForCall = fake.getSpacesArgsForCall ∧
      (fake.GetApplications arg1).1.invocationsOf "GetApplicationByNameAndSpace"
        = fake.invocationsOf "GetApplicationByNameAndSpace" ∧
      (fake.GetApplications arg1).1.invocationsOf "GetOrganizations"
        = fake.invocationsOf "GetOrganizations" ∧
      (fake.GetApplications arg1).1.invocationsOf "GetSpaces"
        = fake.invocationsOf "GetSpaces") ∧
    (∀ (fake : FakeCloudControllerClient App Org Spc Inc Qry) (arg1 arg2 : String),
      (fake.GetApplicationByNameAndSpace arg1 arg2).1.getApplicationByNameAndSpaceArgsForCall
        = fake.getApplicationByNameAndSpaceArgsForCall ++ [(arg1, arg2)] ∧
      (fake.GetApplicationByNameAndSpace arg1 arg2).1.getApplicationsArgsForCall
        = fake.getApplicationsArgsForCall ∧
      (fake.GetApplicationByNameAndSpace arg1 arg2).1.getOrganizationsArgsForCall
        = fake.getOrganizationsArgsForCall ∧
      (fake.GetApplicationByNameAndSpace arg1 arg2).1.getSpacesArgsForCall
        = fake.getSpacesArgsForCall ∧
      (fake.GetApplicationByNameAndSpace arg1 arg2).1.invocationsOf "GetApplications"
        = fake.invocationsOf "GetApplications" ∧
      (fake.GetApplicationByNameAndSpace arg1 arg2).1.invocationsOf "GetOrganizations"
        = fake.invocationsOf "GetOrganizations" ∧
      (fake.GetApplicationByNameAndSpace arg1 arg2).1.invocationsOf "GetSpaces"
        = fake.invocationsOf "GetSpaces") ∧
    (∀ (fake : FakeCloudControllerClient App Org Spc Inc Qry) (arg1 : List Qry),
      (fake.GetOrganizations arg1).1.getOrganizationsArgsForCall
        = fake.getOrganizationsArgsForCall ++ [arg1] ∧
      (fake.GetOrganizations arg1).1.getApplicationByNameAndSpaceArgsForCall
        = fake.getApplicationByNameAndSpaceArgsForCall ∧
      (fake.GetOrganizations arg1).1.getApplicationsArgsForCall
        = fake.getApplicationsArgsForCall ∧
      (fake.GetOrganizations arg1).1.getSpacesArgsForCall = fake.getSpacesArgsForCall ∧
      (fake.GetOrganizations arg1).1.invocationsOf "GetApplicationByNameAndSpace"
        = fake.invocationsOf "GetApplicationByNameAndSpace" ∧
      (fake.GetOrganizations arg1).1.invocationsOf "GetApplications"
        = fake.invocationsOf "GetApplications" ∧
      (fake.GetOrganizations arg1).1.invocationsOf "GetSpaces"
        = fake.invocationsOf "GetSpaces") ∧
    (∀ (fake : FakeCloudControllerClient App Org Spc Inc Qry) (arg1 : List Qry),
      (fake.GetSpaces arg1).1.getSpacesArgsForCall = fake.getSpacesArgsForCall ++ [arg1] ∧
      (fake.GetSpaces arg1).1.getApplicationByNameAndSpaceArgsForCall
        = fake.getApplicationByNameAndSpaceArgsForCall ∧
      (fake.GetSpaces arg1).1.getApplicationsArgsForCall = fake.getApplicationsArgsForCall ∧
      (fake.GetSpaces arg1).1.getOrganizationsArgsForCall
        = fake.getOrganizationsArgsForCall ∧
      (fake.GetSpaces arg1).1.invocationsOf "GetApplicationByNameAndSpace"
        = fake.invocationsOf "GetApplicationByNameAndSpace" ∧
      (fake.GetSpaces arg1).1.invocationsOf "GetApplications"
        = fake.invocationsOf "GetApplications" ∧
      (fake.GetSpaces arg1).1.invocationsOf "GetOrganizations"
        = fake.invocationsOf "GetOrganizations") := by
  obtain ⟨h1, h2, h3, h4, h5, h6, h7, h8⟩ :=
    run_records history (FakeCloudControllerClient.fresh
      : FakeCloudControllerClient App Org Spc Inc Qry)
  have f1 : (FakeCloudControllerClient.fresh
      : FakeCloudControllerClient App Org Spc Inc Qry).getApplicationByNameAndSpaceArgsForCall
      = [] := rfl
  have f2 : (FakeCloudControllerClient.fresh
      : FakeCloudControllerClient App Org Spc Inc Qry).getApplicationsArgsForCall = [] := rfl
  have f3 : (FakeCloudControllerClient.fresh
      : FakeCloudControllerClient App Org Spc Inc Qry).getOrganizationsArgsForCall = [] := rfl
  have f4 : (FakeCloudControllerClient.fresh
      : FakeCloudControllerClient App Org Spc Inc Qry).getSpacesArgsForCall = [] := rfl
  have f5 : ∀ key, (FakeCloudControllerClient.fresh
      : FakeCloudControllerClient App Org Spc Inc Qry).invocationsOf key = [] := fun _ => rfl
  rw [f1, List.nil_append] at h1
  rw [f2, List.nil_append] at h2
  rw [f3, List.nil_append] at h3
  rw [f4, List.nil_append] at h4
  rw [f5, List.nil_append] at h5 h6 h7 h8
  refine ⟨⟨?_, ?_, h6⟩, ⟨?_, ?_, h5⟩, ⟨?_, ?_, h7⟩, ⟨?_, ?_, h8⟩, ?_, ?_, ?_, ?_⟩
  · simp only [FakeCloudControllerClient.GetApplicationsCallCount, h2]
  · intro i hi
    simp only [FakeCloudControllerClient.GetApplicationsArgsForCall, h2]
    exact sliceIndex_natCast _ i hi
  · simp only [FakeCloudControllerClient.GetApplicationByNameAndSpaceCallCount, h1]
  · intro i hi
    simp only [FakeCloudControllerClient.GetApplicationByNameAndSpaceArgsForCall, h1]
    exact sliceIndex_natCast _ i hi
  · simp only [FakeCloudControllerClient.GetOrganizationsCallCount, h3]
  · intro i hi
    simp only [FakeCloudControllerClient.GetOrganizationsArgsForCall, h3]
    exact sliceIndex_natCast _ i hi
  · simp only [FakeCloudControllerClient.GetSpacesCallCount, h4]
  · intro i hi
    simp only [FakeCloudControllerClient.GetSpacesArgsForCall, h4]
    exact sliceIndex_natCast _ i hi
  · intro fake arg1
    have h := apply_records fake (Op.GetApplications arg1)
    simp [FakeCloudControllerClient.apply, appByNameCalls, applicationsCalls,
      organizationsCalls, spacesCalls] at h
    obtain ⟨a1, a2, a3, a4, a5, a6, a7, a8⟩ := h
    exact ⟨a2, a1, a3, a4, a5, a7, a8⟩
  · intro fake arg1 arg2
    have h := apply_records fake (Op.GetApplicationByNameAndSpace arg1 arg2)
    simp [FakeCloudControllerClient.apply, appByNameCalls, applicationsCalls,
      organizationsCalls, spacesCalls] at h
    obtain ⟨a1, a2, a3, a4, a5, a6, a7, a8⟩ := h
    exact ⟨a1, a2, a3, a4, a6, a7, a8⟩
  · intro fake arg1
    have h := apply_records fake (Op.GetOrganizations arg1)
    simp [FakeCloudControllerClient.apply, appByNameCalls, applicationsCalls,
      organizationsCalls, spacesCalls] at h
    obtain ⟨a1, a2, a3, a4, a5, a6, a7, a8⟩ := h
    exact ⟨a3, a1, a2, a4, a5, a6, a8⟩
  · intro fake arg1
    have h := apply_records fake (Op.GetSpaces arg1)
    simp [FakeCloudControllerClient.apply, appByNameCalls, applicationsCalls,
      organizationsCalls, spacesCalls] at h
    obtain ⟨a1, a2, a3, a4, a5, a6, a7, a8⟩ := h
    exact ⟨a4, a1, a2, a3, a5, a6, a7⟩

/-- C9: the result of a `GetApplications` call made after any sequential history on a fresh
fake, hence call number `k` when the history holds `k` earlier calls, is the result of the
stub in force if there is one, else the triple registered for call `k` by the latest
`GetApplicationsReturnsOnCall(k, ...)` if there is one, else the triple of the latest
`GetApplicationsReturns`, the zero values if there is none; `GetApplicationsReturns` and
`GetApplicationsReturnsOnCall` clear the stub, `GetApplicationsCalls` installs it. -/
theorem getApplications_precedence [Inhabited App] [Inhabited Inc]
    (history : List (Op App Org Spc Inc Qry)) (arg1 : List Qry) :
    ((FakeCloudControllerClient.fresh.run history).GetApplications arg1).2
      = expectedApplications history arg1 ∧
    (FakeCloudControllerClient.fresh.run history).GetApplicationsCallCount
      = ((applicationsCalls history).length : Int) ∧
    (∀ stub, latestStub history.reverse = some stub →
      ((FakeCloudControllerClient.fresh.run history).GetApplications arg1).2 = stub arg1) ∧
    (∀ r, latestStub history.reverse = none →
      latestOnCall ((applicationsCalls history).length : Int) history.reverse = some r →
      ((FakeCloudControllerClient.fresh.run history).GetApplications arg1).2 = r) ∧
    (latestStub history.reverse = none →
      latestOnCall ((applicationsCalls history).length : Int) history.reverse = none →
      ((FakeCloudControllerClient.fresh.run history).GetApplications arg1).2
        = latestReturns history.reverse) ∧
    (latestReturns ([] : List (Op App Org Spc Inc Qry)) = ([], [], none)) ∧
    (∀ (fake : FakeCloudControllerClient App Org Spc Inc Qry) (r : AppsResult App),
      (fake.GetApplicationsReturns r).GetApplicationsStub = none) ∧
    (∀ (fake : FakeCloudControllerClient App Org Spc Inc Qry) (i : Int) (r : AppsResult App),
      (fake.GetApplicationsReturnsOnCall i r).GetApplicationsStub = none) ∧
    (∀ (fake : FakeCloudControllerClient App Org Spc Inc Qry)
        (stub : Option (List Qry → AppsResult App)),
      (fake.GetApplicationsCalls stub).GetApplicationsStub = stub) := by
  obtain ⟨hstub, hcall, hret⟩ := run_config history
  obtain ⟨-, hargs, -⟩ := run_records history (FakeCloudControllerClient.fresh
      : FakeCloudControllerClient App Org Spc Inc Qry)
  have f2 : (FakeCloudControllerClient.fresh
      : FakeCloudControllerClient App Org Spc Inc Qry).getApplicationsArgsForCall = [] := rfl
  rw [f2, List.nil_append] at hargs
  have hres := GetApplications_result (FakeCloudControllerClient.fresh.run history) arg1
  rw [hstub, hcall, hret, hargs] at hres
  refine ⟨hres, ?_, ?_, ?_, ?_, rfl, fun _ _ => rfl, fun _ _ _ => rfl, fun _ _ => rfl⟩
  · simp only [FakeCloudControllerClient.GetApplicationsCallCount, hargs]
  · intro stub hs
    rw [hres, hs]
  · intro r hs hr
    rw [hres, hs, hr]
  · intro hs hr
    rw [hres, hs, hr]

/-- A run of the precedence on `exampleHistory`: call 1 gets the triple registered for it,
call 2 the default triple, an installed stub wins over both, and a later
`GetApplicationsReturnsOnCall` removes the stub again. -/
theorem getApplications_precedence_example :
    ((FakeCloudControllerClient.fresh.run exampleHistory).GetApplications ["q1"]).2
      = (["second"], ["w"], none) ∧
    ((FakeCloudControllerClient.fresh.run
        (exampleHistory ++ [Op.GetApplications ["q1"]])).GetApplications ["q2"]).2
      = (["default"], [], none) ∧
    ((FakeCloudControllerClient.fresh.run
        (exampleHistory ++ [Op.GetApplicationsCalls (some fun qs => (qs, [], none))])
      ).GetApplications ["q2"]).2 = (["q2"], [], none) ∧
    ((FakeCloudControllerClient.fresh.run
        (exampleHistory ++ [Op.GetApplicationsCalls (some fun qs => (qs, [], none)),
          Op.GetApplicationsReturnsOnCall 7 ([], [], none)])).GetApplications ["q2"]).2
      = (["second"], ["w"], none) ∧
    (FakeCloudControllerClient.fresh.run exampleHistory).GetApplicationsCallCount = 1 ∧
    (FakeCloudControllerClient.fresh.run exampleHistory).GetApplicationsArgsForCall 0
      = some ["q0"] ∧
    (FakeCloudControllerClient.fresh.run exampleHistory).GetApplicationsArgsForCall 1
      = none := by
  refine ⟨by decide, by decide, by decide, by decide, by decide, by decide, by decide⟩

end

end Fakes

end ServiceAccess
